import Mathlib

/-!
Verification of the document annotation engine (keyword location, geometric
scanning with overlap suppression, layout planning, content injection and the
fallback report path) as implemented in the file service of this repository.
Strings are modelled as lists of characters and pixel coordinates as rationals.
-/

namespace GKD

abbrev Txt := List Char

/-- Stable insertion of a string into a list kept in descending length order.
Elements of equal length keep their original relative order, matching the
stable Array.prototype.sort with comparator b.length - a.length. -/
def insertLenDesc (x : Txt) : List Txt → List Txt
  | [] => [x]
  | y :: ys => if y.length > x.length then y :: insertLenDesc x ys else x :: y :: ys

/-- Stable sort by descending length (the keyword lists are sorted this way). -/
def sortLenDesc (l : List Txt) : List Txt := l.foldr insertLenDesc []

/-- Does keyword kw match in s at offset i (substring comparison)? -/
def matchAt (s kw : Txt) (i : Nat) : Bool := ((s.drop i).take kw.length) == kw

/-- All occurrence offsets of kw in s, in increasing order.  This is the set of
indices produced by the source's "indexOf(keyword, startIndex); startIndex = idx + 1"
loop, which advances one character at a time and therefore finds every
(possibly overlapping) occurrence. -/
def occs (s kw : Txt) : List Nat :=
  (List.range (s.length + 1)).filter (fun i => decide (i + kw.length ≤ s.length) && matchAt s kw i)

/-- JavaScript String.prototype.includes: kw occurs somewhere in s. -/
def includesTxt (s kw : Txt) : Bool := !(occs s kw).isEmpty

/-- SCORE_KEYWORDS of the source, sorted by length descending. -/
def SCORE_KEYWORDS : List Txt :=
  sortLenDesc ([("评分"), ("得分"), ("分数"), ("Score"), ("Grade"), ("Points"), ("Mark")].map String.toList)

/-- COMMENT_KEYWORDS of the source, sorted by length descending. -/
def COMMENT_KEYWORDS : List Txt :=
  sortLenDesc ([("Teacher Comments"), ("教师评语"), ("老师评语"), ("评语"), ("建议"), ("评价"), ("Comments"), ("Feedback"), ("Remarks")].map String.toList)

/-- INSTRUCTOR_KEYWORDS of the source, sorted by length descending. -/
def INSTRUCTOR_KEYWORDS : List Txt :=
  sortLenDesc ([("指导教师"), ("教师签名"), ("签名"), ("Instructor"), ("Teacher"), ("Signature"), ("Signed by")].map String.toList)

/-- Grading result fields used by the annotation engine (types module of the
repository: score is a number, summary and teacher_comment are strings). -/
structure GradingResult where
  score : Int
  summary : Txt
  teacher_comment : Txt
deriving DecidableEq

/-- Signature mode of the instructor settings. -/
inductive SigMode | text | image
deriving DecidableEq

/-- Font style of the instructor settings. -/
inductive FontStyle | standard | artistic
deriving DecidableEq

/-- A decoded signature image supplied as imageData; valid is false when the
PDF embedder would reject it (the source catches that failure). -/
structure SigImg where
  width : ℚ
  height : ℚ
  valid : Bool
deriving DecidableEq

/-- Instructor settings as used by the annotation engine. -/
structure InstructorSettings where
  enabled : Bool
  mode : SigMode
  name : Txt
  fontStyle : FontStyle
  imageData : Option SigImg
deriving DecidableEq

/-! Canvas text rasterization model.  The browser canvas is external; we model
its 2d-context availability as a flag and measureText as an arbitrary function
of the font size and the text (fonts and colors do not affect the geometry
derived from measurements, so they are not part of the measurement input). -/

/-- Environment of the CDN libraries and of the canvas, whose presence the
source checks at run time, plus the abstract measureText function. -/
structure Env where
  jszip : Bool
  xlsx : Bool
  pdfjs : Bool
  pdflib : Bool
  jspdf : Bool
  ctx2d : Bool
  m : ℚ → Txt → ℚ

/-- One step of the character-wise line-breaking loop of createTextImage:
the accumulator holds the finished lines and the current line, the input is a
(character index, character) pair; a break happens when the measured test line
exceeds maxWidth and the index is positive. -/
def wrapStep (m : Txt → ℚ) (maxWidth : ℚ) (acc : List Txt × Txt) (p : Nat × Char) : List Txt × Txt :=
  let test := acc.2 ++ [p.2]
  if decide (m test > maxWidth) && decide (0 < p.1) then (acc.1 ++ [acc.2], [p.2]) else (acc.1, test)

/-- The line-breaking loop of createTextImage (isMultiLine = true). -/
def wrapLines (m : Txt → ℚ) (maxWidth : ℚ) (text : Txt) : List Txt :=
  let r := text.enum.foldl (wrapStep m maxWidth) (([] : List Txt), ([] : Txt))
  r.1 ++ [r.2]

/-- A rasterized text image.  srcText records the text the image was rendered
from (ghost data used only by specifications; the algorithms never read it). -/
structure TextImg where
  srcText : Txt
  width : ℚ
  height : ℚ
deriving DecidableEq

/-- Options of createTextImage that affect its geometry. -/
structure TextImgOptions where
  maxWidth : ℚ := 800
  fontSize : ℚ := 18
  isMultiLine : Bool := false

/-- createTextImage: returns none for empty text or when no 2d context is
available; otherwise breaks the text into lines, takes the widest measured
line, and produces a canvas of ceil(maxLineWidth + 10) by
ceil(lines * fontSize * 1.4) pixels. -/
def createTextImage (env : Env) (text : Txt) (opts : TextImgOptions) : Option TextImg :=
  if text.isEmpty then none
  else if !env.ctx2d then none
  else
    let m := env.m opts.fontSize
    let lines := if opts.isMultiLine then wrapLines m opts.maxWidth text else [text]
    let maxLineWidth := lines.foldl (fun acc l => if m l > acc then m l else acc) 0
    let lineHeight := opts.fontSize * (14 / 10)
    some { srcText := text
           width := ((⌈maxLineWidth + 10⌉ : ℤ) : ℚ)
           height := ((⌈(lines.length : ℚ) * lineHeight⌉ : ℤ) : ℚ) }

/-- createSignatureImage: a 48px non-wrapping text image (the font family
choice between artistic and standard does not change the model geometry). -/
def createSignatureImage (env : Env) (text : Txt) (_isArtistic : Bool) : Option TextImg :=
  createTextImage env text { fontSize := 48 }

/-! Word (docx) document model.  The XML tree is modelled structurally: a body
is a list of blocks (tables or paragraphs), tables hold rows of cells, cells
hold paragraphs.  A paragraph carries an opaque paragraph-properties payload
(w:pPr), its runs, and its nested w:p children - the source's
updateWordParagraph, when handed a paragraph node as the parent, appends a
nested w:p inside it (getElementsByTagName searches descendants only), so one
nesting level is reachable and modelled; nested paragraphs follow the runs in
child order, as produced by appendChild. -/

/-- A text run (w:r) with its color and font overrides and its text. -/
structure WRun where
  color : Option Txt
  fonts : Option Txt
  text : Txt
deriving DecidableEq

/-- A nested paragraph (a w:p appearing as a child of another w:p). -/
structure WSubPara where
  pPr : Option Txt
  runs : List WRun
deriving DecidableEq

/-- A paragraph (w:p): properties, runs, then nested paragraphs. -/
structure WPara where
  pPr : Option Txt
  runs : List WRun
  nested : List WSubPara
deriving DecidableEq

/-- A table cell (w:tc). -/
structure WCell where
  paras : List WPara
deriving DecidableEq

/-- A table row (w:tr). -/
structure WRow where
  cells : List WCell
deriving DecidableEq

/-- A body-level block: a table (w:tbl) or a paragraph (w:p). -/
inductive WBlock
  | table (rows : List WRow)
  | par (p : WPara)
deriving DecidableEq

/-- A Word document body. -/
structure WordDoc where
  blocks : List WBlock
deriving DecidableEq

/-- textContent of a nested paragraph. -/
def subParaText (sp : WSubPara) : Txt := (sp.runs.map (fun r => r.text)).flatten

/-- textContent of a paragraph: run texts then nested-paragraph texts,
concatenated in document order. -/
def paraText (p : WPara) : Txt :=
  (p.runs.map (fun r => r.text)).flatten ++ (p.nested.map subParaText).flatten

/-- textContent of a table cell. -/
def cellText (c : WCell) : Txt := (c.paras.map paraText).flatten

/-- The new run built by updateWordParagraph: a w:r whose w:rPr holds the
color (and the optional font) and whose w:t holds the text. -/
def mkRun (t : Txt) (colorHex : Txt) (font : Option Txt) : WRun :=
  { color := some colorHex, fonts := font, text := t }

/-- updateWordParagraph with a cell as the parent: take the first w:p
descendant of the cell (create and append one if the cell has none), detach
its w:pPr, clear all its children, reattach the w:pPr and append the new run. -/
def updateCellNode (c : WCell) (t colorHex : Txt) (font : Option Txt) : WCell :=
  match c.paras with
  | [] => { paras := [{ pPr := none, runs := [mkRun t colorHex font], nested := [] }] }
  | p :: rest => { paras := { pPr := p.pPr, runs := [mkRun t colorHex font], nested := [] } :: rest }

/-- updateWordParagraph with a paragraph as the parent: getElementsByTagName
searches descendants only, so the first nested w:p is used (or a fresh one is
appended inside the parent), and that nested paragraph's children are cleared
and rebuilt; the parent's own runs are untouched. -/
def updateParaNode (p : WPara) (t colorHex : Txt) (font : Option Txt) : WPara :=
  match p.nested with
  | [] => { pPr := p.pPr, runs := p.runs, nested := [{ pPr := none, runs := [mkRun t colorHex font] }] }
  | q :: rest => { pPr := p.pPr, runs := p.runs, nested := { pPr := q.pPr, runs := [mkRun t colorHex font] } :: rest }

/-- Identity of a DOM node, used for the modifiedNodes set: a table cell, a
paragraph inside a cell, or a body paragraph (positions are stable because the
annotation never adds or removes cells, rows or top-level paragraphs). -/
inductive NodeRef
  | cellRef (b r c : Nat)
  | cellParaRef (b r c k : Nat)
  | bodyParaRef (b : Nat)
deriving DecidableEq

/-- Replace the element at index i by f of it (no-op when out of range). -/
def updAt (l : List α) (i : Nat) (f : α → α) : List α :=
  match l.get? i with
  | some x => l.set i (f x)
  | none => l

/-- Look up a cell by block, row and column index. -/
def getCellW (d : WordDoc) (b r c : Nat) : Option WCell :=
  match d.blocks.get? b with
  | some (WBlock.table rows) => (rows.get? r).bind (fun row => row.cells.get? c)
  | _ => none

/-- Apply f to the cell at (b, r, c). -/
def setCellW (d : WordDoc) (b r c : Nat) (f : WCell → WCell) : WordDoc :=
  { blocks :=
      updAt d.blocks b (fun blk =>
        match blk with
        | WBlock.table rows => WBlock.table (updAt rows r (fun row => { cells := updAt row.cells c f }))
        | other => other) }

/-- Look up a paragraph node by reference (cell refs resolve to none). -/
def getParaW (d : WordDoc) : NodeRef → Option WPara
  | NodeRef.cellParaRef b r c k => (getCellW d b r c).bind (fun cl => cl.paras.get? k)
  | NodeRef.bodyParaRef b =>
      match d.blocks.get? b with
      | some (WBlock.par p) => some p
      | _ => none
  | NodeRef.cellRef _ _ _ => none

/-- Apply f to the paragraph node named by the reference. -/
def setParaW (d : WordDoc) (ref : NodeRef) (f : WPara → WPara) : WordDoc :=
  match ref with
  | NodeRef.cellParaRef b r c k => setCellW d b r c (fun cl => { paras := updAt cl.paras k f })
  | NodeRef.bodyParaRef b =>
      { blocks :=
          updAt d.blocks b (fun blk =>
            match blk with
            | WBlock.par p => WBlock.par (f p)
            | other => other) }
  | NodeRef.cellRef _ _ _ => d

/-- nextElementSibling of a cell, as a reference (cells of one row are
siblings; the last cell of a row has no next element sibling). -/
def nextCellRef (d : WordDoc) (b r c : Nat) : Option NodeRef :=
  (getCellW d b r (c + 1)).map (fun _ => NodeRef.cellRef b r (c + 1))

/-- nextElementSibling of a paragraph when that sibling is again a w:p: for a
paragraph inside a cell this is the next paragraph of the same cell, for a
body paragraph it is the next body block provided that block is a paragraph
(a following table has tagName w:tbl and fails the w:p check). -/
def nextParaRef (d : WordDoc) : NodeRef → Option NodeRef
  | NodeRef.cellParaRef b r c k =>
      (getCellW d b r c).bind (fun cl =>
        (cl.paras.get? (k + 1)).map (fun _ => NodeRef.cellParaRef b r c (k + 1)))
  | NodeRef.bodyParaRef b =>
      match d.blocks.get? (b + 1) with
      | some (WBlock.par _) => some (NodeRef.bodyParaRef (b + 1))
      | _ => none
  | NodeRef.cellRef _ _ _ => none

/-- State threaded through the two annotation passes of annotateWord: the
document, the modifiedNodes set, and a ghost log recording which category
wrote which node (the log never influences control flow). -/
structure WState where
  doc : WordDoc
  modified : List NodeRef
  log : List (NodeRef × Nat)
deriving DecidableEq

/-- Category tags used in the ghost log: 0 = score, 1 = comment, 2 = instructor. -/
def catScore : Nat := 0

/-- Comment category tag of the ghost log. -/
def catComment : Nat := 1

/-- Instructor category tag of the ghost log. -/
def catInstructor : Nat := 2

/-- Write into the cell named by ref unless it is already in modifiedNodes
(the "nextCell && !modifiedNodes.has(nextCell)" guard). -/
def writeCell (st : WState) (ref : Option NodeRef) (cat : Nat) (t colorHex : Txt) (font : Option Txt) : WState :=
  match ref with
  | none => st
  | some (NodeRef.cellRef b r c) =>
      if st.modified.contains (NodeRef.cellRef b r c) then st
      else { doc := setCellW st.doc b r c (fun cl => updateCellNode cl t colorHex font)
             modified := NodeRef.cellRef b r c :: st.modified
             log := st.log ++ [(NodeRef.cellRef b r c, cat)] }
  | some _ => st

/-- The text written to a score cell: template literal score + " / 100". -/
def scoreCellText (res : GradingResult) : Txt := (toString res.score).toList ++ (" / 100").toList

/-- The text written by the paragraph pass: template literal score + "/100". -/
def scoreParaText (res : GradingResult) : Txt := (toString res.score).toList ++ ("/100").toList

/-- The signature text: instructor.name with "AI Grader" as the || default. -/
def signText (ins : InstructorSettings) : Txt :=
  if ins.name.isEmpty then ("AI Grader").toList else ins.name

/-- The font override of a signature written into a cell. -/
def signFont (ins : InstructorSettings) : Option Txt :=
  if ins.fontStyle = FontStyle.artistic then some (("KaiTi").toList) else none

/-- Score match on a textContent or cell value: SCORE_KEYWORDS.some(includes). -/
def scoreMatches (val : Txt) : Bool := SCORE_KEYWORDS.any (fun k => includesTxt val k)

/-- Comment match: COMMENT_KEYWORDS.some(includes). -/
def commentMatches (val : Txt) : Bool := COMMENT_KEYWORDS.any (fun k => includesTxt val k)

/-- Instructor match: instructor && instructor.enabled &&
INSTRUCTOR_KEYWORDS.some(includes). -/
def instrMatches (instr : Option InstructorSettings) (val : Txt) : Bool :=
  match instr with
  | some ins => ins.enabled && INSTRUCTOR_KEYWORDS.any (fun k => includesTxt val k)
  | none => false

/-- The signature text written on an instructor match (the branch only runs
when the settings are present). -/
def instrText (instr : Option InstructorSettings) : Txt :=
  match instr with
  | some ins => signText ins
  | none => []

/-- The signature font override written on an instructor match. -/
def instrFont (instr : Option InstructorSettings) : Option Txt :=
  match instr with
  | some ins => signFont ins
  | none => none

/-- The three category writes of one table-cell iteration, in source order
(score, comment, instructor), all against the one next sibling cell and the
one textContent read at the start of the iteration. -/
def cellWrites (res : GradingResult) (instr : Option InstructorSettings) (st : WState)
    (next : Option NodeRef) (text : Txt) : WState :=
  let st1 := if scoreMatches text then writeCell st next catScore (scoreCellText res) (("FF0000").toList) none else st
  let st2 := if commentMatches text then writeCell st1 next catComment res.teacher_comment (("FF0000").toList) none else st1
  if instrMatches instr text then writeCell st2 next catInstructor (instrText instr) (("000000").toList) (instrFont instr) else st2

/-- Dispatch of one table-cell iteration on the looked-up cell. -/
def cellDispatch (res : GradingResult) (instr : Option InstructorSettings) (st : WState)
    (pos : Nat × Nat × Nat) : Option WCell → WState
  | none => st
  | some cell => cellWrites res instr st (nextCellRef st.doc pos.1 pos.2.1 pos.2.2) (cellText cell)

/-- One iteration of the table-cell loop of annotateWord: read the cell's
textContent once, then try the score, comment and instructor categories in
that order, each writing to the next sibling cell when it exists and has not
been claimed yet. -/
def cellStep (res : GradingResult) (instr : Option InstructorSettings) (st : WState) (pos : Nat × Nat × Nat) : WState :=
  cellDispatch res instr st pos (getCellW st.doc pos.1 pos.2.1 pos.2.2)

/-- All cell positions of the document in document order. -/
def cellRefs (d : WordDoc) : List (Nat × Nat × Nat) :=
  (d.blocks.enum.map (fun bp =>
    match bp.2 with
    | WBlock.table rows =>
        (rows.enum.map (fun rp =>
          rp.2.cells.enum.map (fun cp => (bp.1, rp.1, cp.1)))).flatten
    | WBlock.par _ => [])).flatten

/-- Trigger of the paragraph pass: the paragraph text equals a score keyword
or contains keyword + ":". -/
def paraTrigger (text : Txt) : Bool :=
  SCORE_KEYWORDS.any (fun k => text == k || includesTxt text (k ++ (":").toList))

/-- The write of the paragraph pass: performed only when the target's
existing textContent is truthy (nonempty) and shorter than 20 characters. -/
def paraMark (res : GradingResult) (st : WState) (nref : NodeRef) (np : WPara) : WState :=
  if !(paraText np).isEmpty && decide ((paraText np).length < 20) then
    { doc := setParaW st.doc nref (fun q => updateParaNode q (scoreParaText res) (("FF0000").toList) none)
      modified := nref :: st.modified
      log := st.log ++ [(nref, catScore)] }
  else st

/-- Dispatch of the paragraph-pass write on the looked-up target paragraph. -/
def paraWriteTarget (res : GradingResult) (st : WState) (nref : NodeRef) : Option WPara → WState
  | some np => paraMark res st nref np
  | none => st

/-- The paragraph-pass action on an unclaimed-checked next sibling. -/
def paraWrite (res : GradingResult) (st : WState) (nref : NodeRef) : WState :=
  if st.modified.contains nref then st
  else paraWriteTarget res st nref (getParaW st.doc nref)

/-- Dispatch of the paragraph-pass action on the next sibling reference. -/
def paraNextDispatch (res : GradingResult) (st : WState) : Option NodeRef → WState
  | some nref => paraWrite res st nref
  | none => st

/-- Dispatch of one paragraph iteration on the looked-up paragraph. -/
def paraDispatch (res : GradingResult) (st : WState) (ref : NodeRef) : Option WPara → WState
  | none => st
  | some p =>
      if paraTrigger (paraText p) then paraNextDispatch res st (nextParaRef st.doc ref)
      else st

/-- One iteration of the paragraph loop of annotateWord: a triggering
paragraph targets its next sibling paragraph, which is written only when it is
unclaimed and its existing textContent is truthy (nonempty) and shorter than
20 characters. -/
def paraStep (res : GradingResult) (st : WState) (ref : NodeRef) : WState :=
  paraDispatch res st ref (getParaW st.doc ref)

/-- All paragraph references of the document in document order, as seen by the
live w:p collection at the start of the paragraph pass (paragraphs inside
cells and body paragraphs).  Nested w:p nodes injected by annotation are not
listed: their text is the digit-and-slash string score + "/100", which never
equals a keyword nor contains keyword + ":", and a paragraph created inside a
previously empty cell or paragraph is its parent's last child and so has no
next element sibling; visiting either kind is a no-op. -/
def paraRefs (d : WordDoc) : List NodeRef :=
  (d.blocks.enum.map (fun bp =>
    match bp.2 with
    | WBlock.table rows =>
        (rows.enum.map (fun rp =>
          (rp.2.cells.enum.map (fun cp =>
            cp.2.paras.enum.map (fun pp => NodeRef.cellParaRef bp.1 rp.1 cp.1 pp.1))).flatten)).flatten
    | WBlock.par _ => [NodeRef.bodyParaRef bp.1])).flatten

/-- annotateWord's two passes over a parsed document, returning the final
state (document, modifiedNodes and the ghost log). -/
def annotateWordFull (d : WordDoc) (res : GradingResult) (instr : Option InstructorSettings) : WState :=
  let st0 : WState := { doc := d, modified := [], log := [] }
  let st1 := (cellRefs d).foldl (cellStep res instr) st0
  (paraRefs st1.doc).foldl (paraStep res) st1

/-- The document produced by annotateWord (before serialization). -/
def annotateWordDoc (d : WordDoc) (res : GradingResult) (instr : Option InstructorSettings) : WordDoc :=
  (annotateWordFull d res instr).doc

/-! Excel (xlsx) model: a sheet is its decoded !ref range plus an association
list from (row, column) to cells; cell.v is modelled as the string the source
reads through String(cell.v), with the empty string standing for a falsy v. -/

/-- A spreadsheet cell: its type tag and its value. -/
structure XCell where
  t : Txt
  v : Txt
deriving DecidableEq

/-- A worksheet: the decoded !ref range (start row, start column, end row,
end column; the source defaults a missing !ref to A1:Z100) and the cells. -/
structure Sheet where
  rs : Nat
  cs : Nat
  re : Nat
  ce : Nat
  cells : List ((Nat × Nat) × XCell)
deriving DecidableEq

/-- sheet[encode_cell({r, c})]: first binding of the address, if any. -/
def getCellX (s : Sheet) (r c : Nat) : Option XCell :=
  (s.cells.find? (fun p => p.1 == (r, c))).map (fun p => p.2)

/-- Assignment sheet[addr] = cell: the new binding shadows any previous one. -/
def setCellX (s : Sheet) (r c : Nat) (cell : XCell) : Sheet :=
  { s with cells := ((r, c), cell) :: s.cells.filter (fun p => !(p.1 == (r, c))) }

/-- writeToNextCell: fetch the cell at (r, c+1) or synthesize {t: 's', v: ''},
then set its value to the text and its type to 's'. -/
def writeToNextCell (s : Sheet) (r c : Nat) (text : Txt) : Sheet :=
  setCellX s r (c + 1) { t := ("s").toList, v := text }

/-- The text written to a score cell of a spreadsheet: score + "/100". -/
def scoreExcelText (res : GradingResult) : Txt := (toString res.score).toList ++ ("/100").toList

/-- The three category writes of one range-scan iteration of annotateExcel,
in source order (score, comment, instructor), all against the same adjacent
cell and with no consumed marking; the second component is the ghost write
log. -/
def excelWrites (res : GradingResult) (instr : Option InstructorSettings)
    (acc : Sheet × List ((Nat × Nat) × Nat)) (pos : Nat × Nat) (val : Txt) : Sheet × List ((Nat × Nat) × Nat) :=
  let a1 :=
    if scoreMatches val then
      (writeToNextCell acc.1 pos.1 pos.2 (scoreExcelText res), acc.2 ++ [((pos.1, pos.2 + 1), catScore)])
    else acc
  let a2 :=
    if commentMatches val then
      (writeToNextCell a1.1 pos.1 pos.2 res.teacher_comment, a1.2 ++ [((pos.1, pos.2 + 1), catComment)])
    else a1
  if instrMatches instr val then
    (writeToNextCell a2.1 pos.1 pos.2 (instrText instr), a2.2 ++ [((pos.1, pos.2 + 1), catInstructor)])
  else a2

/-- Dispatch of one range-scan iteration on the looked-up cell. -/
def excelDispatch (res : GradingResult) (instr : Option InstructorSettings)
    (acc : Sheet × List ((Nat × Nat) × Nat)) (pos : Nat × Nat) : Option XCell → Sheet × List ((Nat × Nat) × Nat)
  | none => acc
  | some cell => if cell.v.isEmpty then acc else excelWrites res instr acc pos cell.v

/-- One iteration of the range scan of annotateExcel at (r, c): when the cell
exists and its value is truthy, each matching category writes the adjacent
cell in the order score, comment, instructor (no consumed marking). -/
def excelStep (res : GradingResult) (instr : Option InstructorSettings) (acc : Sheet × List ((Nat × Nat) × Nat)) (pos : Nat × Nat) : Sheet × List ((Nat × Nat) × Nat) :=
  excelDispatch res instr acc pos (getCellX acc.1 pos.1 pos.2)

/-- The (row, column) positions visited by the nested for loops over the
decoded range, row by row. -/
def rangePositions (s : Sheet) : List (Nat × Nat) :=
  ((List.range (s.re + 1 - s.rs)).map (fun dr => s.rs + dr)).flatMap (fun r =>
    ((List.range (s.ce + 1 - s.cs)).map (fun dc => s.cs + dc)).map (fun c => (r, c)))

/-- annotateExcel's scan of one worksheet, with its ghost write log. -/
def annotateExcelSheet (res : GradingResult) (instr : Option InstructorSettings) (s : Sheet) : Sheet × List ((Nat × Nat) × Nat) :=
  (rangePositions s).foldl (excelStep res instr) (s, [])

/-- annotateExcel over every sheet of the workbook. -/
def annotateExcelWb (wb : List Sheet) (res : GradingResult) (instr : Option InstructorSettings) : List Sheet :=
  wb.map (fun s => (annotateExcelSheet res instr s).1)

/-! PDF model: pdf.js exposes each page as a list of text items carrying a
string, the origin of its transform, and a width and height; pdf-lib reports
the page size used for drawing. -/

/-- A text item of getTextContent: item.str, transform[4], transform[5],
item.width, item.height. -/
structure PdfItem where
  str : Txt
  x : ℚ
  y : ℚ
  width : ℚ
  height : ℚ
deriving DecidableEq

/-- A PDF page: its text items and its drawing size. -/
structure PdfPage where
  items : List PdfItem
  width : ℚ
  height : ℚ
deriving DecidableEq

/-- Annotation category of a located region. -/
inductive AnnType | score | comment | instructor
deriving DecidableEq

/-- A located placeholder region (the source's PdfLocation).  The keyword
field is ghost data recording which keyword produced the region; the
algorithms never read it. -/
structure PdfLocation where
  page : Nat
  x : ℚ
  y : ℚ
  width : ℚ
  height : ℚ
  isVertical : Bool
  type : AnnType
  keyword : Txt
deriving DecidableEq

/-- The collision test of annotatePdf: boxes are separated exactly when one
lies strictly beyond the other on some axis. -/
def isOverlapping (r1 r2 : PdfLocation) : Bool :=
  !(decide (r2.x > r1.x + r1.width) || decide (r2.x + r2.width < r1.x) ||
    decide (r2.y > r1.y + r1.height) || decide (r2.y + r2.height < r1.y))

/-- An entry of the per-page character map: one character with its
approximated box. -/
structure CMapEntry where
  ch : Char
  x : ℚ
  y : ℚ
  w : ℚ
  h : ℚ
deriving DecidableEq

/-- The characters of one text item: the item's width is divided evenly
across its characters. -/
def itemChars (it : PdfItem) : List CMapEntry :=
  let charW := it.width / (it.str.length : ℚ)
  it.str.enum.map (fun p =>
    { ch := p.2, x := it.x + (p.1 : ℚ) * charW, y := it.y, w := charW, h := it.height })

/-- The character map of a page: all items flattened in order. -/
def buildCharMap (items : List PdfItem) : List CMapEntry :=
  (items.map itemChars).flatten

/-- The page-length string obtained by concatenating the mapped characters. -/
def pageStr (cm : List CMapEntry) : Txt := cm.map (fun e => e.ch)

/-- Math.min over a list (the argument list is always nonempty at use sites). -/
def listMinQ : List ℚ → ℚ
  | [] => 0
  | x :: xs => xs.foldl min x

/-- Math.max over a list (the argument list is always nonempty at use sites). -/
def listMaxQ : List ℚ → ℚ
  | [] => 0
  | x :: xs => xs.foldl max x

/-- The candidate location built from an occurrence of a keyword at offset
idx: the union bounding box of the occurrence's characters, with the vertical
heuristic height > width * 1.2. -/
def mkCandidate (pageIdx : Nat) (cm : List CMapEntry) (kw : Txt) (ty : AnnType) (idx : Nat) : PdfLocation :=
  let foundChars := (cm.drop idx).take kw.length
  let minX := listMinQ (foundChars.map (fun e => e.x))
  let maxX := listMaxQ (foundChars.map (fun e => e.x + e.w))
  let minY := listMinQ (foundChars.map (fun e => e.y))
  let maxY := listMaxQ (foundChars.map (fun e => e.y + e.h))
  { page := pageIdx, x := minX, y := minY, width := maxX - minX, height := maxY - minY
    isVertical := decide (maxY - minY > (maxX - minX) * (12 / 10)), type := ty, keyword := kw }

/-- Accept a candidate unless an already accepted location on the same page
overlaps it. -/
def addCandidate (locs : List PdfLocation) (cand : PdfLocation) : List PdfLocation :=
  if locs.any (fun l => l.page == cand.page && isOverlapping l cand) then locs
  else locs ++ [cand]

/-- findAndAdd for one keyword: every occurrence on the page yields a
candidate (the source guards on a nonempty character slice, which holds for
every occurrence offset produced by the search). -/
def findAndAddKw (pageIdx : Nat) (cm : List CMapEntry) (locs : List PdfLocation) (kw : Txt) (ty : AnnType) : List PdfLocation :=
  (occs (pageStr cm) kw).foldl (fun ls idx =>
    if ((cm.drop idx).take kw.length).length > 0 then addCandidate ls (mkCandidate pageIdx cm kw ty idx)
    else ls) locs

/-- findAndAdd over a keyword list, in its (length-descending) order. -/
def findAndAdd (pageIdx : Nat) (cm : List CMapEntry) (locs : List PdfLocation) (kws : List Txt) (ty : AnnType) : List PdfLocation :=
  kws.foldl (fun ls kw => findAndAddKw pageIdx cm ls kw ty) locs

/-- The location scan of one page: score keywords, then comment keywords,
then (only when instructor settings were passed) instructor keywords. -/
def scanPage (pageIdx : Nat) (pg : PdfPage) (instr : Option InstructorSettings) (locs : List PdfLocation) : List PdfLocation :=
  let cm := buildCharMap pg.items
  let l1 := findAndAdd pageIdx cm locs SCORE_KEYWORDS AnnType.score
  let l2 := findAndAdd pageIdx cm l1 COMMENT_KEYWORDS AnnType.comment
  match instr with
  | some _ => findAndAdd pageIdx cm l2 INSTRUCTOR_KEYWORDS AnnType.instructor
  | none => l2

/-- The full location scan of annotatePdf over all pages. -/
def scanPdf (pages : List PdfPage) (instr : Option InstructorSettings) : List PdfLocation :=
  pages.enum.foldl (fun ls pp => scanPage pp.1 pp.2 instr ls) []

/-- A planned draw box for one image or text placement. -/
structure DrawBox where
  x : ℚ
  y : ℚ
  w : ℚ
  h : ℚ
deriving DecidableEq

/-- A drawing operation recorded on the output PDF: an image rasterized from
the given source text, the embedded signature image, or a drawText call. -/
inductive PdfOp
  | image (src : Txt) (box : DrawBox)
  | sigImage (box : DrawBox)
  | text (s : Txt) (x y size : ℚ)
deriving DecidableEq

/-- The score draw box: anchored 50 to the right of the label box, at the
label's y, at half the rasterized image size (no page-bound check). -/
def planScore (loc : PdfLocation) (img : TextImg) : DrawBox :=
  { x := loc.x + loc.width + 50, y := loc.y, w := img.width * (1 / 2), h := img.height * (1 / 2) }

/-- The overflow test of the comment placement: the 350-wide box at margin
50 beside the label would cross pageW - 20. -/
def commentMoveDown (loc : PdfLocation) (pageW : ℚ) : Bool :=
  decide (loc.x + loc.width + 50 + 350 > pageW - 20)

/-- The budget width of the comment box: full width (pageW - 80) after
overflow relocation, 350 beside the label otherwise. -/
def commentFinalWidth (loc : PdfLocation) (pageW : ℚ) : ℚ :=
  if commentMoveDown loc pageW then pageW - 80 else 350

/-- The draw box of a rasterized comment image: beside the label (stacked
below a vertical label), or at x = 40 over the full width after overflow
relocation, with the final y clamped to the 30-point bottom margin. -/
def commentBox (loc : PdfLocation) (pageW : ℚ) (img : TextImg) : DrawBox :=
  let drawX : ℚ := if commentMoveDown loc pageW then 40 else loc.x + loc.width + 50
  let targetTopY : ℚ := if loc.isVertical then loc.y + loc.height else loc.y + 10
  let finalImageH := img.height * (1 / 2)
  let drawY0 : ℚ := if commentMoveDown loc pageW then loc.y - 15 - finalImageH else targetTopY - finalImageH
  { x := drawX, y := if drawY0 < 30 then 30 else drawY0, w := img.width * (1 / 2), h := finalImageH }

/-- The comment placement of annotatePdf: rasterize the comment (with the
"No comments generated." default) against twice the budget width, and place
it in its draw box. -/
def planComment (env : Env) (loc : PdfLocation) (pageW : ℚ) (commentText : Txt) : Option (TextImg × DrawBox) :=
  (createTextImage env (if commentText.isEmpty then ("No comments generated.").toList else commentText)
      { maxWidth := commentFinalWidth loc pageW * 2, fontSize := 18, isMultiLine := true }).map
    (fun img => (img, commentBox loc pageW img))

/-- The signature draw box: half the embedded image's size, capped at width
150 with proportional height, anchored 20 right of and 5 below the label. -/
def planSignature (loc : PdfLocation) (sigW sigH : ℚ) : DrawBox :=
  let dw := sigW * (1 / 2)
  let dh := sigH * (1 / 2)
  let w : ℚ := if dw > 150 then 150 else dw
  let h : ℚ := if dw > 150 then (150 / dw) * dh else dh
  { x := loc.x + loc.width + 20, y := loc.y - 5, w := w, h := h }

/-- The embedded signature image's dimensions: for image mode a valid
imageData (embed failures are caught and leave it null), for text mode a
rasterized name (null when the name is empty). -/
def resolveSignatureDims (env : Env) (instr : Option InstructorSettings) : Option (ℚ × ℚ) :=
  match instr with
  | none => none
  | some ins =>
    if ins.enabled then
      match ins.mode, ins.imageData with
      | SigMode.image, some img => if img.valid then some (img.width, img.height) else none
      | SigMode.image, none => none
      | SigMode.text, _ =>
          if ins.name.isEmpty then none
          else (createSignatureImage env ins.name (ins.fontStyle = FontStyle.artistic)).map
            (fun t => (t.width, t.height))
    else none

/-- The rasterized score image of annotatePdf: the score rendered at 36px. -/
def scoreImg (env : Env) (res : GradingResult) : Option TextImg :=
  createTextImage env ((toString res.score).toList) { fontSize := 36 }

/-- The draw operations emitted for one located region. -/
def drawLoc (env : Env) (res : GradingResult) (instr : Option InstructorSettings)
    (sImg : Option TextImg) (sig : Option (ℚ × ℚ)) (pageW : ℚ) (loc : PdfLocation) : List PdfOp :=
  match loc.type with
  | AnnType.score =>
      match sImg with
      | some img => [PdfOp.image img.srcText (planScore loc img)]
      | none => []
  | AnnType.comment =>
      match planComment env loc pageW res.teacher_comment with
      | some pr => [PdfOp.image pr.1.srcText pr.2]
      | none => []
  | AnnType.instructor =>
      match instr with
      | some ins =>
          if ins.enabled then
            match sig with
            | some d => [PdfOp.sigImage (planSignature loc d.1 d.2)]
            | none => []
          else []
      | none => []

/-- The fallback page drawn when no location was found: a report heading, the
score label and image, the comment label and image, and optionally the
instructor label and signature image. -/
def fallbackOps (env : Env) (res : GradingResult) (instr : Option InstructorSettings)
    (sImg : Option TextImg) (sig : Option (ℚ × ℚ)) : List PdfOp :=
  let o1 := [PdfOp.text (("Grading Report").toList) 50 700 20]
  let o2 :=
    match sImg with
    | some img =>
        o1 ++ [PdfOp.text (("Score:").toList) 50 650 14,
               PdfOp.image img.srcText { x := 100, y := 650, w := img.width * (1 / 2), h := img.height * (1 / 2) }]
    | none => o1
  let fbText := if res.teacher_comment.isEmpty then ("No comments.").toList else res.teacher_comment
  let o3 :=
    match createTextImage env fbText { maxWidth := 1000, fontSize := 18, isMultiLine := true } with
    | some img =>
        o2 ++ [PdfOp.text (("Comments:").toList) 50 600 14,
               PdfOp.image img.srcText { x := 50, y := 580 - img.height * (1 / 2), w := img.width * (1 / 2), h := img.height * (1 / 2) }]
    | none => o2
  match instr with
  | some ins =>
      if ins.enabled then
        match sig with
        | some _ => o3 ++ [PdfOp.text (("Instructor:").toList) 50 400 12,
                           PdfOp.sigImage { x := 120, y := 390, w := 100, h := 50 }]
        | none => o3
      else o3
  | none => o3

/-- The page a location draws on (locations always index an existing page). -/
def pageOf (pages : List PdfPage) (i : Nat) : PdfPage :=
  pages.getD i { items := [], width := 0, height := 0 }

/-- annotatePdf after parsing: locate placeholders, draw each located region,
and draw the fallback report page when no location was found.  Returns the
draw operations and the located regions. -/
def annotatePdfDoc (env : Env) (pages : List PdfPage) (res : GradingResult) (instr : Option InstructorSettings) : List PdfOp × List PdfLocation :=
  let locations := scanPdf pages instr
  let sig := resolveSignatureDims env instr
  let sImg := scoreImg env res
  let mainOps := locations.foldl
    (fun ops loc => ops ++ drawLoc env res instr sImg sig (pageOf pages loc.page).width loc) []
  if locations.isEmpty then (mainOps ++ fallbackOps env res instr sImg sig, locations)
  else (mainOps, locations)

/-! File-level model: getAnnotatedFileBlob and the jsPDF fallback report. -/

/-- The first component of a produced artifact. -/
inductive Blob
  | word (d : WordDoc)
  | excel (wb : List Sheet)
  | pdf (ops : List PdfOp)
  | report (fileName : Txt) (score : Int) (summary : Txt) (instructorName : Option Txt)
deriving DecidableEq

/-- The errors the annotation entry points can raise. -/
inductive AnnError
  | jszipMissing
  | xlsxMissing
  | pdfLibsMissing
  | jspdfMissing
  | invalidDocx
  | readFailed
  | unsupported
deriving DecidableEq

/-- MIME-type classification of File.type ("empty" is the falsy empty string,
"other" any other MIME string). -/
inductive FileTypeM
  | word
  | excel
  | pdf
  | other
  | empty
deriving DecidableEq

/-- The parsed payload of an input file (the byte-level codecs are external;
a word file whose zip lacks word/document.xml is word none). -/
inductive FileContent
  | word (d : Option WordDoc)
  | excel (wb : List Sheet)
  | pdf (pages : List PdfPage)
  | other
deriving DecidableEq

/-- An input file: its name, its MIME type and its parsed payload. -/
structure MFile where
  name : Txt
  ftype : FileTypeM
  content : FileContent
deriving DecidableEq

/-- Case-insensitive suffix test on the lowercased name. -/
def lowerEndsWith (name suffix : Txt) : Bool :=
  (suffix.map Char.toLower).isSuffixOf (name.map Char.toLower)

/-- getMimeTypeFromExtension: classify by the lowercased extension. -/
def getMimeTypeFromExtension (name : Txt) : FileTypeM :=
  if lowerEndsWith name ((".docx").toList) then FileTypeM.word
  else if lowerEndsWith name ((".xlsx").toList) then FileTypeM.excel
  else if lowerEndsWith name ((".pdf").toList) then FileTypeM.pdf
  else FileTypeM.other

/-- annotateWord: fails when JSZip is missing or the payload is not a valid
docx; otherwise runs the two passes and serializes the document. -/
def annotateWordE (env : Env) (f : MFile) (res : GradingResult) (instr : Option InstructorSettings) : Except AnnError Blob :=
  if !env.jszip then Except.error AnnError.jszipMissing
  else
    match f.content with
    | FileContent.word (some d) => Except.ok (Blob.word (annotateWordDoc d res instr))
    | FileContent.word none => Except.error AnnError.invalidDocx
    | _ => Except.error AnnError.invalidDocx

/-- annotateExcel: fails when the XLSX library is missing or the payload is
not a workbook; otherwise annotates every sheet. -/
def annotateExcelE (env : Env) (f : MFile) (res : GradingResult) (instr : Option InstructorSettings) : Except AnnError Blob :=
  if !env.xlsx then Except.error AnnError.xlsxMissing
  else
    match f.content with
    | FileContent.excel wb => Except.ok (Blob.excel (annotateExcelWb wb res instr))
    | _ => Except.error AnnError.readFailed

/-- annotatePdf: fails when pdf.js or pdf-lib is missing or the payload is
not a PDF; otherwise locates, draws and saves. -/
def annotatePdfE (env : Env) (f : MFile) (res : GradingResult) (instr : Option InstructorSettings) : Except AnnError Blob :=
  if !(env.pdfjs && env.pdflib) then Except.error AnnError.pdfLibsMissing
  else
    match f.content with
    | FileContent.pdf pages => Except.ok (Blob.pdf (annotatePdfDoc env pages res instr).1)
    | _ => Except.error AnnError.readFailed

/-- generateReportPDFBlob: throws when jsPDF is missing, otherwise emits the
synthetic report (file name, score, summary, and the instructor name when
instructor signing is enabled). -/
def generateReportPDFBlobE (env : Env) (name : Txt) (res : GradingResult) (instr : Option InstructorSettings) : Except AnnError Blob :=
  if !env.jspdf then Except.error AnnError.jspdfMissing
  else
    Except.ok (Blob.report name res.score res.summary
      (match instr with
       | some ins => if ins.enabled then some ins.name else none
       | none => none))

/-- The catch block of getAnnotatedFileBlob: pass a success through, and on
any raised error substitute the jsPDF report with the pdf extension. -/
def withReportFallback (env : Env) (name : Txt) (res : GradingResult)
    (instr : Option InstructorSettings) : Except AnnError (Blob × String) → Except AnnError (Blob × String)
  | Except.ok r => Except.ok r
  | Except.error _ => (generateReportPDFBlobE env name res instr).map (fun b => (b, "pdf"))

/-- The dispatch of getAnnotatedFileBlob on the MIME type (or the raw file
name's extension). -/
def annotateAttempt (env : Env) (f : MFile) (res : GradingResult) (instr : Option InstructorSettings) : Except AnnError (Blob × String) :=
  let ftype := if f.ftype == FileTypeM.empty then getMimeTypeFromExtension f.name else f.ftype
  if ftype == FileTypeM.word || ((".docx").toList).isSuffixOf f.name then
    (annotateWordE env f res instr).map (fun b => (b, "docx"))
  else if ftype == FileTypeM.excel || ((".xlsx").toList).isSuffixOf f.name then
    (annotateExcelE env f res instr).map (fun b => (b, "xlsx"))
  else if ftype == FileTypeM.pdf || ((".pdf").toList).isSuffixOf f.name then
    (annotatePdfE env f res instr).map (fun b => (b, "pdf"))
  else Except.error AnnError.unsupported

/-- getAnnotatedFileBlob: dispatch on the MIME type (or the raw file name's
extension), and on any raised error substitute the jsPDF report with the pdf
extension. -/
def getAnnotatedFileBlob (env : Env) (f : MFile) (res : GradingResult) (instr : Option InstructorSettings) : Except AnnError (Blob × String) :=
  withReportFallback env f.name res instr (annotateAttempt env f res instr)

/-- Does the artifact contain the given text anywhere a reader would see it? -/
def blobContainsTxt (bl : Blob) (needle : Txt) : Bool :=
  match bl with
  | Blob.word d =>
      d.blocks.any (fun blk =>
        match blk with
        | WBlock.table rows => rows.any (fun row => row.cells.any (fun cl => includesTxt (cellText cl) needle))
        | WBlock.par p => includesTxt (paraText p) needle)
  | Blob.excel wb => wb.any (fun s => s.cells.any (fun p => includesTxt p.2.v needle))
  | Blob.pdf ops =>
      ops.any (fun op =>
        match op with
        | PdfOp.image src _ => includesTxt src needle
        | PdfOp.text s _ _ _ => includesTxt s needle
        | PdfOp.sigImage _ => false)
  | Blob.report name score summary _ =>
      includesTxt name needle || includesTxt ((toString score).toList) needle || includesTxt summary needle

/-- Boolean success test for Except results. -/
def isOkE (e : Except AnnError (Blob × String)) : Bool :=
  match e with
  | Except.ok _ => true
  | Except.error _ => false

/-! Helper lemmas. -/

/-- The decimal rendering of an integer is never the empty string (auxiliary
bound on the fuel recursion of Nat.toDigitsCore). -/
theorem toDigitsCore_len_ge (b : Nat) : ∀ (f n : Nat) (l : List Char), l.length ≤ (Nat.toDigitsCore b f n l).length := by
  intro f
  induction f with
  | zero => intro n l; simp [Nat.toDigitsCore]
  | succ f ih =>
    intro n l
    simp only [Nat.toDigitsCore]
    by_cases h : n / b = 0
    · simp [h]
    · simp only [h, if_false]
      calc l.length ≤ (Nat.digitChar (n % b) :: l).length := by simp
        _ ≤ _ := ih _ _

/-- toString of an integer is a nonempty character list. -/
theorem toString_int_ne_nil (n : Int) : (toString n).toList ≠ [] := by
  show (Int.repr n).toList ≠ []
  cases n with
  | ofNat m =>
      show (Nat.repr m).toList ≠ []
      show (Nat.toDigits 10 m).asString.toList ≠ []
      show Nat.toDigitsCore 10 (m + 1) m [] ≠ []
      simp only [Nat.toDigitsCore]
      by_cases h : m / 10 = 0
      · simp [h]
      · simp only [h, if_false]
        intro hc
        have hlen := toDigitsCore_len_ge 10 m (m / 10) [Nat.digitChar (m % 10)]
        rw [hc] at hlen
        simp at hlen
  | negSucc m =>
      show (("-") ++ Nat.repr (m + 1)).toList ≠ []
      simp [String.toList]

/-- A point of the plane lying inside a location's closed bounding box. -/
def inBox (l : PdfLocation) (px py : ℚ) : Prop :=
  l.x ≤ px ∧ px ≤ l.x + l.width ∧ l.y ≤ py ∧ py ≤ l.y + l.height

/-- When the collision test reports no overlap, the closed boxes share no
point. -/
theorem disjoint_of_not_overlapping (a b : PdfLocation) (h : isOverlapping a b = false) :
    ∀ px py, ¬(inBox a px py ∧ inBox b px py) := by
  intro px py hc
  obtain ⟨⟨hax, hax2, hay, hay2⟩, ⟨hbx, hbx2, hby, hby2⟩⟩ := hc
  unfold isOverlapping at h
  have h2 : (decide (b.x > a.x + a.width) || decide (b.x + b.width < a.x) ||
      decide (b.y > a.y + a.height) || decide (b.y + b.height < a.y)) = true := by
    cases hX : (decide (b.x > a.x + a.width) || decide (b.x + b.width < a.x) ||
        decide (b.y > a.y + a.height) || decide (b.y + b.height < a.y)) with
    | true => rfl
    | false => rw [hX] at h; simp at h
  simp only [Bool.or_eq_true, decide_eq_true_eq] at h2
  rcases h2 with ((h2 | h2) | h2) | h2 <;> linarith

/-- The accepted-locations relation maintained by the scan: locations on the
same page never overlap. -/
def noOverlapOn (a b : PdfLocation) : Prop := a.page = b.page → isOverlapping a b = false

/-- addCandidate preserves pairwise non-overlap: the candidate is only
appended when no accepted location on its page overlaps it. -/
theorem pairwise_addCandidate (locs : List PdfLocation) (cand : PdfLocation)
    (h : locs.Pairwise noOverlapOn) : (addCandidate locs cand).Pairwise noOverlapOn := by
  unfold addCandidate
  cases hny : locs.any (fun l => l.page == cand.page && isOverlapping l cand) with
  | true => simpa [hny] using h
  | false =>
    have hnot : ∀ a ∈ locs, a.page = cand.page → isOverlapping a cand = false := by
      intro a ha hpage
      have hall := List.any_eq_false.mp hny a ha
      simp only [Bool.and_eq_true, beq_iff_eq, not_and] at hall
      rcases Bool.eq_false_or_eq_true (isOverlapping a cand) with ht | hf
      · exact absurd ht (hall hpage)
      · exact hf
    simp only [hny, Bool.false_eq_true, if_false]
    rw [List.pairwise_append]
    refine ⟨h, List.pairwise_singleton _ _, ?_⟩
    intro a ha b hb
    simp only [List.mem_singleton] at hb
    subst hb
    intro hpage
    exact hnot a ha hpage

/-- Folding any addCandidate-based step over a list preserves pairwise
non-overlap. -/
theorem pairwise_foldl {β : Type} (f : List PdfLocation → β → List PdfLocation)
    (hf : ∀ ls b, ls.Pairwise noOverlapOn → (f ls b).Pairwise noOverlapOn) :
    ∀ (l : List β) (ls : List PdfLocation), ls.Pairwise noOverlapOn → (l.foldl f ls).Pairwise noOverlapOn := by
  intro l
  induction l with
  | nil => intro ls h; exact h
  | cons x xs ih => intro ls h; exact ih (f ls x) (hf ls x h)

/-- findAndAddKw preserves pairwise non-overlap. -/
theorem pairwise_findAndAddKw (p : Nat) (cm : List CMapEntry) (kw : Txt) (ty : AnnType)
    (ls : List PdfLocation) (h : ls.Pairwise noOverlapOn) :
    (findAndAddKw p cm ls kw ty).Pairwise noOverlapOn := by
  unfold findAndAddKw
  refine pairwise_foldl _ ?_ _ _ h
  intro ls' idx h'
  by_cases hg : ((cm.drop idx).take kw.length).length > 0
  · simp only [hg, if_true]; exact pairwise_addCandidate _ _ h'
  · simp only [hg, if_false]; exact h'

/-- findAndAdd preserves pairwise non-overlap. -/
theorem pairwise_findAndAdd (p : Nat) (cm : List CMapEntry) (kws : List Txt) (ty : AnnType)
    (ls : List PdfLocation) (h : ls.Pairwise noOverlapOn) :
    (findAndAdd p cm ls kws ty).Pairwise noOverlapOn := by
  unfold findAndAdd
  refine pairwise_foldl _ ?_ _ _ h
  intro ls' kw h'
  exact pairwise_findAndAddKw p cm kw ty ls' h'

/-- scanPage preserves pairwise non-overlap. -/
theorem pairwise_scanPage (p : Nat) (pg : PdfPage) (instr : Option InstructorSettings)
    (ls : List PdfLocation) (h : ls.Pairwise noOverlapOn) :
    (scanPage p pg instr ls).Pairwise noOverlapOn := by
  unfold scanPage
  cases instr with
  | some ins =>
      exact pairwise_findAndAdd _ _ _ _ _ (pairwise_findAndAdd _ _ _ _ _ (pairwise_findAndAdd _ _ _ _ _ h))
  | none =>
      exact pairwise_findAndAdd _ _ _ _ _ (pairwise_findAndAdd _ _ _ _ _ h)

/-- C4.  After the geometric scan with collision suppression, any two
accepted regions on the same page have non-intersecting axis-aligned boxes:
the collision test reports no overlap and their closed boxes share no point
of the plane; a candidate overlapping a previously accepted region on its
page is discarded by addCandidate (shown by pairwise preservation through
every scan step starting from the empty list). -/
theorem scanPdf_no_overlap (pages : List PdfPage) (instr : Option InstructorSettings) :
    (scanPdf pages instr).Pairwise (fun a b => a.page = b.page →
      isOverlapping a b = false ∧ ∀ px py, ¬(inBox a px py ∧ inBox b px py)) := by
  have base : (scanPdf pages instr).Pairwise noOverlapOn := by
    unfold scanPdf
    refine pairwise_foldl _ ?_ _ _ (List.Pairwise.nil)
    intro ls pp h
    exact pairwise_scanPage _ _ _ _ h
  refine base.imp ?_
  intro a b hab hpage
  exact ⟨hab hpage, disjoint_of_not_overlapping a b (hab hpage)⟩

/-- Folding min never exceeds the initial value. -/
theorem foldl_min_le (l : List ℚ) : ∀ a : ℚ, l.foldl min a ≤ a := by
  induction l with
  | nil => intro a; exact le_refl a
  | cons x xs ih => intro a; exact le_trans (ih (min a x)) (min_le_left a x)

/-- Folding min is bounded by every member. -/
theorem foldl_min_le_of_mem (l : List ℚ) (b : ℚ) (hb : b ∈ l) : ∀ a : ℚ, l.foldl min a ≤ b := by
  induction l with
  | nil => cases hb
  | cons x xs ih =>
    intro a
    rcases List.mem_cons.mp hb with hx | hxs
    · subst hx
      exact le_trans (foldl_min_le xs (min a b)) (min_le_right a b)
    · exact ih hxs (min a x)

/-- Folding min yields the initial value or a member. -/
theorem foldl_min_cases (l : List ℚ) : ∀ a : ℚ, l.foldl min a = a ∨ l.foldl min a ∈ l := by
  induction l with
  | nil => intro a; exact Or.inl rfl
  | cons x xs ih =>
    intro a
    rcases ih (min a x) with h | h
    · rcases min_choice a x with hm | hm
      · exact Or.inl (by rw [List.foldl_cons, h, hm])
      · exact Or.inr (by rw [List.foldl_cons, h, hm]; exact List.mem_cons_self x xs)
    · exact Or.inr (List.mem_cons_of_mem x h)

/-- Folding max is at least the initial value. -/
theorem le_foldl_max (l : List ℚ) : ∀ a : ℚ, a ≤ l.foldl max a := by
  induction l with
  | nil => intro a; exact le_refl a
  | cons x xs ih => intro a; exact le_trans (le_max_left a x) (ih (max a x))

/-- Folding max dominates every member. -/
theorem le_foldl_max_of_mem (l : List ℚ) (b : ℚ) (hb : b ∈ l) : ∀ a : ℚ, b ≤ l.foldl max a := by
  induction l with
  | nil => cases hb
  | cons x xs ih =>
    intro a
    rcases List.mem_cons.mp hb with hx | hxs
    · subst hx
      exact le_trans (le_max_right a b) (le_foldl_max xs (max a b))
    · exact ih hxs (max a x)

/-- listMinQ is bounded by every member. -/
theorem listMinQ_le_of_mem (l : List ℚ) (b : ℚ) (hb : b ∈ l) : listMinQ l ≤ b := by
  cases l with
  | nil => cases hb
  | cons x xs =>
    rcases List.mem_cons.mp hb with hx | hxs
    · subst hx; exact foldl_min_le xs b
    · exact foldl_min_le_of_mem xs b hxs x

/-- listMinQ of a nonempty list is a member. -/
theorem listMinQ_mem (l : List ℚ) (h : l ≠ []) : listMinQ l ∈ l := by
  cases l with
  | nil => exact absurd rfl h
  | cons x xs =>
    rcases foldl_min_cases xs x with hc | hc
    · rw [listMinQ, hc]; exact List.mem_cons_self x xs
    · rw [listMinQ]; exact List.mem_cons_of_mem x hc

/-- listMaxQ dominates every member. -/
theorem le_listMaxQ_of_mem (l : List ℚ) (b : ℚ) (hb : b ∈ l) : b ≤ listMaxQ l := by
  cases l with
  | nil => cases hb
  | cons x xs =>
    rcases List.mem_cons.mp hb with hx | hxs
    · subst hx; exact le_foldl_max xs b
    · exact le_foldl_max_of_mem xs b hxs x

/-- The x coordinate of a candidate is the minimum over its characters. -/
theorem mkCandidate_x (p : Nat) (cm : List CMapEntry) (kw : Txt) (ty : AnnType) (i : Nat) :
    (mkCandidate p cm kw ty i).x = listMinQ (((cm.drop i).take kw.length).map (fun e => e.x)) := rfl

/-- The right edge x + width of a candidate is the maximum of x + w over its
characters. -/
theorem mkCandidate_right (p : Nat) (cm : List CMapEntry) (kw : Txt) (ty : AnnType) (i : Nat) :
    (mkCandidate p cm kw ty i).x + (mkCandidate p cm kw ty i).width
      = listMaxQ (((cm.drop i).take kw.length).map (fun e => e.x + e.w)) := by
  show listMinQ _ + (listMaxQ _ - listMinQ _) = listMaxQ _
  ring

/-- The y coordinate of a candidate is the minimum over its characters. -/
theorem mkCandidate_y (p : Nat) (cm : List CMapEntry) (kw : Txt) (ty : AnnType) (i : Nat) :
    (mkCandidate p cm kw ty i).y = listMinQ (((cm.drop i).take kw.length).map (fun e => e.y)) := rfl

/-- The top edge y + height of a candidate is the maximum of y + h over its
characters. -/
theorem mkCandidate_top (p : Nat) (cm : List CMapEntry) (kw : Txt) (ty : AnnType) (i : Nat) :
    (mkCandidate p cm kw ty i).y + (mkCandidate p cm kw ty i).height
      = listMaxQ (((cm.drop i).take kw.length).map (fun e => e.y + e.h)) := by
  show listMinQ _ + (listMaxQ _ - listMinQ _) = listMaxQ _
  ring

/-- Two candidates over the same character map overlap whenever the second
one's characters form a nonempty subset of the first one's characters and all
character widths and heights are nonnegative; the box of the subset then lies
inside the box of the superset. -/
theorem isOverlapping_of_subset (p1 p2 : Nat) (cm : List CMapEntry) (kw1 kw2 : Txt)
    (ty1 ty2 : AnnType) (i1 i2 : Nat)
    (hw : ∀ e ∈ cm, 0 ≤ e.w) (hh : ∀ e ∈ cm, 0 ≤ e.h)
    (hne : ((cm.drop i2).take kw2.length) ≠ [])
    (hsub : ∀ e ∈ (cm.drop i2).take kw2.length, e ∈ (cm.drop i1).take kw1.length) :
    isOverlapping (mkCandidate p1 cm kw1 ty1 i1) (mkCandidate p2 cm kw2 ty2 i2) = true := by
  have hmem2 : ∀ e ∈ (cm.drop i2).take kw2.length, e ∈ cm :=
    fun e he => List.drop_subset i2 cm (List.take_subset _ _ he)
  obtain ⟨e0, he0⟩ := List.exists_mem_of_ne_nil _ hne
  -- the four strict-separation conditions are each false
  have c1 : ¬((mkCandidate p2 cm kw2 ty2 i2).x > (mkCandidate p1 cm kw1 ty1 i1).x + (mkCandidate p1 cm kw1 ty1 i1).width) := by
    rw [mkCandidate_x, mkCandidate_right, not_lt]
    have hx2 : listMinQ (((cm.drop i2).take kw2.length).map (fun e => e.x)) ∈ _ :=
      listMinQ_mem (((cm.drop i2).take kw2.length).map (fun e => e.x)) (by simpa using hne)
    obtain ⟨e, he, hex⟩ := List.mem_map.mp hx2
    rw [← hex]
    have hbound : e.x + e.w ≤ listMaxQ (((cm.drop i1).take kw1.length).map (fun e => e.x + e.w)) :=
      le_listMaxQ_of_mem _ _ (List.mem_map.mpr ⟨e, hsub e he, rfl⟩)
    have hw0 : 0 ≤ e.w := hw e (hmem2 e he)
    linarith
  have c2 : ¬((mkCandidate p2 cm kw2 ty2 i2).x + (mkCandidate p2 cm kw2 ty2 i2).width < (mkCandidate p1 cm kw1 ty1 i1).x) := by
    rw [mkCandidate_right, mkCandidate_x, not_lt]
    have hlow : listMinQ (((cm.drop i1).take kw1.length).map (fun e => e.x)) ≤ e0.x :=
      listMinQ_le_of_mem _ _ (List.mem_map.mpr ⟨e0, hsub e0 he0, rfl⟩)
    have hhigh : e0.x + e0.w ≤ listMaxQ (((cm.drop i2).take kw2.length).map (fun e => e.x + e.w)) :=
      le_listMaxQ_of_mem _ _ (List.mem_map.mpr ⟨e0, he0, rfl⟩)
    have hw0 : 0 ≤ e0.w := hw e0 (hmem2 e0 he0)
    linarith
  have c3 : ¬((mkCandidate p2 cm kw2 ty2 i2).y > (mkCandidate p1 cm kw1 ty1 i1).y + (mkCandidate p1 cm kw1 ty1 i1).height) := by
    rw [mkCandidate_y, mkCandidate_top, not_lt]
    have hy2 : listMinQ (((cm.drop i2).take kw2.length).map (fun e => e.y)) ∈ _ :=
      listMinQ_mem (((cm.drop i2).take kw2.length).map (fun e => e.y)) (by simpa using hne)
    obtain ⟨e, he, hey⟩ := List.mem_map.mp hy2
    rw [← hey]
    have hbound : e.y + e.h ≤ listMaxQ (((cm.drop i1).take kw1.length).map (fun e => e.y + e.h)) :=
      le_listMaxQ_of_mem _ _ (List.mem_map.mpr ⟨e, hsub e he, rfl⟩)
    have hh0 : 0 ≤ e.h := hh e (hmem2 e he)
    linarith
  have c4 : ¬((mkCandidate p2 cm kw2 ty2 i2).y + (mkCandidate p2 cm kw2 ty2 i2).height < (mkCandidate p1 cm kw1 ty1 i1).y) := by
    rw [mkCandidate_top, mkCandidate_y, not_lt]
    have hlow : listMinQ (((cm.drop i1).take kw1.length).map (fun e => e.y)) ≤ e0.y :=
      listMinQ_le_of_mem _ _ (List.mem_map.mpr ⟨e0, hsub e0 he0, rfl⟩)
    have hhigh : e0.y + e0.h ≤ listMaxQ (((cm.drop i2).take kw2.length).map (fun e => e.y + e.h)) :=
      le_listMaxQ_of_mem _ _ (List.mem_map.mpr ⟨e0, he0, rfl⟩)
    have hh0 : 0 ≤ e0.h := hh e0 (hmem2 e0 he0)
    linarith
  unfold isOverlapping
  rw [decide_eq_false c1, decide_eq_false c2, decide_eq_false c3, decide_eq_false c4]
  rfl

/-- A candidate overlapping an accepted location on its page is dropped. -/
theorem addCandidate_of_overlap (locs : List PdfLocation) (cand : PdfLocation)
    (h : ∃ l ∈ locs, l.page = cand.page ∧ isOverlapping l cand = true) :
    addCandidate locs cand = locs := by
  obtain ⟨l, hl, hpage, hov⟩ := h
  unfold addCandidate
  have hany : locs.any (fun l => l.page == cand.page && isOverlapping l cand) = true :=
    List.any_eq_true.mpr ⟨l, hl, by simp [hpage, hov]⟩
  simp [hany]

/-! Claim C7: cross-category priority at a shared location. -/

/-- A page on which the score keyword with two characters and the comment
keyword "Comments" occupy genuinely intersecting boxes: the first item spans
x 0..10 and the second x 5..21 at the same height. -/
def pageC7 : PdfPage :=
  { items := [ { str := ("分数").toList, x := 0, y := 0, width := 10, height := 10 },
               { str := ("Comments").toList, x := 5, y := 0, width := 16, height := 10 } ]
    width := 600, height := 800 }

/-- The accepted score location of pageC7. -/
def locC7score : PdfLocation :=
  mkCandidate 0 (buildCharMap pageC7.items) (("分数").toList) AnnType.score 0

/-- The rejected comment candidate of pageC7. -/
def candC7comment : PdfLocation :=
  mkCandidate 0 (buildCharMap pageC7.items) (("Comments").toList) AnnType.comment 2

unseal Rat.add Rat.mul Rat.inv Rat.sub in
/-- C7 counterexample.  Two keyword occurrences from different categories
occupy intersecting boxes, the comment keyword "Comments" (8 characters) is
strictly longer and thus more specific than the score keyword (2 characters),
yet the scan accepts only the score region: categories are scanned in the
fixed order score, comment, instructor, so the earlier category wins the
shared location regardless of keyword length, contradicting the claim that
the most specific (longest) label is the accepted one.  (The claim's own
example cannot even collide: matching is case-sensitive, so the keyword
"Mark" never matches inside "Remarks".) -/
theorem scanPdf_shared_location_not_longest :
    isOverlapping locC7score candC7comment = true ∧
    (("Comments").toList).length > (("分数").toList).length ∧
    scanPdf [pageC7] none = [locC7score] ∧
    locC7score.keyword = ("分数").toList ∧ locC7score.type = AnnType.score ∧
    includesTxt (("Remarks").toList) (("Mark").toList) = false := by
  refine ⟨by decide, by decide, by decide, by decide, by decide, by decide⟩

/-- C7 amended.  What the code guarantees at a shared page location is
determined by scan order, not by keyword length alone: a candidate whose box
overlaps any previously accepted location on the same page is discarded,
whichever keyword is longer.  Within one category longer keywords are scanned
first, but across categories the fixed order score, comment, instructor
decides. -/
theorem addCandidate_discards_overlapping (locs : List PdfLocation) (cand : PdfLocation)
    (h : ∃ l ∈ locs, l.page = cand.page ∧ isOverlapping l cand = true) :
    addCandidate locs cand = locs :=
  addCandidate_of_overlap locs cand h

unseal Rat.add Rat.mul Rat.inv Rat.sub in
/-- Witness of the amended C7 at the concrete shared location of pageC7. -/
theorem addCandidate_discards_overlapping_witness :
    addCandidate [locC7score] candC7comment = [locC7score] :=
  addCandidate_discards_overlapping [locC7score] candC7comment
    ⟨locC7score, by decide, by decide, by decide⟩

/-! Claim C5: idempotence of the mutator updateWordParagraph. -/

/-- Total number of injected runs reachable in a cell. -/
def cellRunCount (c : WCell) : Nat :=
  (c.paras.map (fun p => p.runs.length + (p.nested.map (fun q => q.runs.length)).sum)).sum

/-- Total number of runs reachable in a paragraph node. -/
def paraRunCount (p : WPara) : Nat :=
  p.runs.length + (p.nested.map (fun q => q.runs.length)).sum

/-- C5.  The mutator is idempotent: applying updateWordParagraph a second
time with the same inputs to a target node (a table cell or a paragraph)
replaces the previously injected content instead of duplicating it, so the
document node and in particular its run count are unchanged; for cell targets
this is because all existing children of the found paragraph are cleared
(after detaching the paragraph properties) before the new run is appended. -/
theorem updateWordParagraph_idempotent (c : WCell) (p : WPara) (t colorHex : Txt) (font : Option Txt) :
    updateCellNode (updateCellNode c t colorHex font) t colorHex font = updateCellNode c t colorHex font ∧
    updateParaNode (updateParaNode p t colorHex font) t colorHex font = updateParaNode p t colorHex font ∧
    cellRunCount (updateCellNode (updateCellNode c t colorHex font) t colorHex font)
      = cellRunCount (updateCellNode c t colorHex font) ∧
    paraRunCount (updateParaNode (updateParaNode p t colorHex font) t colorHex font)
      = paraRunCount (updateParaNode p t colorHex font) := by
  have hc : updateCellNode (updateCellNode c t colorHex font) t colorHex font = updateCellNode c t colorHex font := by
    cases hps : c.paras with
    | nil => simp [updateCellNode, hps]
    | cons q rest => simp [updateCellNode, hps]
  have hp : updateParaNode (updateParaNode p t colorHex font) t colorHex font = updateParaNode p t colorHex font := by
    cases hns : p.nested with
    | nil => simp [updateParaNode, hns]
    | cons q rest => simp [updateParaNode, hns]
  exact ⟨hc, hp, by rw [hc], by rw [hp]⟩

/-! Claim C10: a matching label cell that is last in its row. -/

/-- C10.  A cell whose text matches a keyword but which has no next element
sibling injects nothing, synthesizes nothing and raises nothing - the
iteration step leaves the whole state (document, modifiedNodes, log)
untouched - and annotateWord still returns a document blob for every valid
docx input. -/
theorem annotateWord_last_cell_skipped
    (res : GradingResult) (instr : Option InstructorSettings) (st : WState) (b r c : Nat)
    (hnone : nextCellRef st.doc b r c = none)
    (env : Env) (f : MFile) (d : WordDoc)
    (hz : env.jszip = true) (hc : f.content = FileContent.word (some d)) :
    cellStep res instr st (b, r, c) = st ∧
    annotateWordE env f res instr = Except.ok (Blob.word (annotateWordDoc d res instr)) := by
  have hwnone : ∀ (s : WState) (cat : Nat) (t col : Txt) (fo : Option Txt),
      writeCell s none cat t col fo = s := fun _ _ _ _ _ => rfl
  constructor
  · unfold cellStep
    cases getCellW st.doc b r c with
    | none => rfl
    | some cell =>
      show cellWrites res instr st (nextCellRef st.doc b r c) (cellText cell) = st
      rw [hnone]
      unfold cellWrites
      cases scoreMatches (cellText cell) <;> cases commentMatches (cellText cell) <;>
        cases instrMatches instr (cellText cell) <;> simp only [hwnone] <;> rfl
  · unfold annotateWordE
    rw [hz, hc]
    rfl

/-- Witness of C10: a one-row table whose only cell reads "Score"; the step
is the identity and the file is annotated to an unchanged document blob. -/
def docC10 : WordDoc :=
  ⟨[WBlock.table [⟨[⟨[⟨none, [⟨none, none, ("Score").toList⟩], []⟩]⟩]⟩]]⟩

/-- Environment with every library available and a trivial measurer. -/
def envAll : Env :=
  { jszip := true, xlsx := true, pdfjs := true, pdflib := true, jspdf := true, ctx2d := true
    m := fun _ s => 7 * (s.length : ℚ) }

/-- Grading result used by the concrete witnesses. -/
def resW : GradingResult :=
  { score := 87, summary := ("ok").toList, teacher_comment := ("Good").toList }

/-- Word file wrapping docC10. -/
def fileC10 : MFile :=
  { name := ("hw.docx").toList, ftype := FileTypeM.word, content := FileContent.word (some docC10) }

unseal Rat.add Rat.mul Rat.inv Rat.sub in
/-- Witness of C10 at the concrete one-row document. -/
theorem annotateWord_last_cell_skipped_witness :
    cellStep resW none { doc := docC10, modified := [], log := [] } (0, 0, 0)
        = { doc := docC10, modified := [], log := [] } ∧
    annotateWordE envAll fileC10 resW none
        = Except.ok (Blob.word (annotateWordDoc docC10 resW none)) :=
  annotateWord_last_cell_skipped resW none { doc := docC10, modified := [], log := [] } 0 0 0
    (by decide) envAll fileC10 docC10 rfl rfl

/-! Claim C6: within-category composite-keyword priority. -/

/-- The number of characters of one item equals its string length. -/
theorem itemChars_length (it : PdfItem) : (itemChars it).length = it.str.length := by
  simp [itemChars]

/-- The page string of a single-item page is that item's string. -/
theorem pageStr_single (it : PdfItem) : pageStr (buildCharMap [it]) = it.str := by
  simp only [buildCharMap, List.map_cons, List.map_nil, List.flatten_cons, List.flatten_nil,
    List.append_nil, pageStr, itemChars, List.map_map]
  exact List.enum_map_snd it.str

/-- Character map length of a single-item page. -/
theorem buildCharMap_single_length (it : PdfItem) : (buildCharMap [it]).length = it.str.length := by
  simp only [buildCharMap, List.map_cons, List.map_nil, List.flatten_cons, List.flatten_nil,
    List.append_nil]
  exact itemChars_length it

/-- Every character of a single-item page has the item's uniform character
width and the item's height. -/
theorem mem_buildCharMap_single (it : PdfItem) (e : CMapEntry) (he : e ∈ buildCharMap [it]) :
    e.w = it.width / (it.str.length : ℚ) ∧ e.h = it.height := by
  simp only [buildCharMap, List.map_cons, List.map_nil, List.flatten_cons, List.flatten_nil,
    List.append_nil, itemChars, List.mem_map] at he
  obtain ⟨p, _, rfl⟩ := he
  exact ⟨rfl, rfl⟩

/-- A keyword with no occurrence adds no location. -/
theorem findAndAddKw_no_occ (p : Nat) (cm : List CMapEntry) (locs : List PdfLocation)
    (kw : Txt) (ty : AnnType) (h : occs (pageStr cm) kw = []) :
    findAndAddKw p cm locs kw ty = locs := by
  unfold findAndAddKw
  rw [h]
  rfl

/-- A keyword list with no occurrences at all adds no location. -/
theorem findAndAdd_no_occ (p : Nat) (cm : List CMapEntry) (kws : List Txt) (ty : AnnType) :
    ∀ locs : List PdfLocation, (∀ kw ∈ kws, occs (pageStr cm) kw = []) →
    findAndAdd p cm locs kws ty = locs := by
  induction kws with
  | nil => intro locs _; rfl
  | cons kw rest ih =>
    intro locs hall
    show findAndAdd p cm (findAndAddKw p cm locs kw ty) rest ty = locs
    rw [findAndAddKw_no_occ p cm locs kw ty (hall kw (List.mem_cons_self kw rest))]
    exact ih locs (fun k hk => hall k (List.mem_cons_of_mem kw hk))

/-- Unfolding one keyword of findAndAdd. -/
theorem findAndAdd_cons (p : Nat) (cm : List CMapEntry) (locs : List PdfLocation)
    (kw : Txt) (kws : List Txt) (ty : AnnType) :
    findAndAdd p cm locs (kw :: kws) ty = findAndAdd p cm (findAndAddKw p cm locs kw ty) kws ty := rfl

/-- A keyword with exactly one occurrence contributes exactly one candidate. -/
theorem findAndAddKw_single_occ (p : Nat) (cm : List CMapEntry) (locs : List PdfLocation)
    (kw : Txt) (ty : AnnType) (i : Nat) (h : occs (pageStr cm) kw = [i])
    (hg : ((cm.drop i).take kw.length).length > 0) :
    findAndAddKw p cm locs kw ty = addCandidate locs (mkCandidate p cm kw ty i) := by
  unfold findAndAddKw
  rw [h]
  simp only [List.foldl_cons, List.foldl_nil, if_pos hg]

/-- The single text item of the C6 scenario: a run reading exactly the
composite phrase. -/
def itemTC (x y w h : ℚ) : PdfItem :=
  { str := ("Teacher Comments").toList, x := x, y := y, width := w, height := h }

/-- A one-item page holding the composite phrase. -/
def pageTC (x y w h pw ph : ℚ) : PdfPage := { items := [itemTC x y w h], width := pw, height := ph }

/-- Its character map. -/
def cmTC (x y w h : ℚ) : List CMapEntry := buildCharMap [itemTC x y w h]

/-- The accepted location: the composite phrase, as a comment region. -/
def locTC (x y w h : ℚ) : PdfLocation :=
  mkCandidate 0 (cmTC x y w h) (("Teacher Comments").toList) AnnType.comment 0

/-- C6.  On a page whose text region reads "Teacher Comments" - which
contains both the composite comment keyword and its substring keyword
"Comments" (and the instructor keyword "Teacher") - the scan resolves to
exactly one location for that region, bound to the longest keyword
"Teacher Comments": within a category keywords are scanned in descending
length order, so the composite phrase is accepted first and every shorter
keyword's box, being a subset of the accepted box, is suppressed; this holds
for every placement and size of the region and with or without instructor
settings. -/
theorem scanPdf_composite_keyword_wins (x y w h pw ph : ℚ) (hw : 0 ≤ w) (hh : 0 ≤ h)
    (instr : Option InstructorSettings) :
    scanPdf [pageTC x y w h pw ph] instr = [locTC x y w h] ∧
    (locTC x y w h).keyword = ("Teacher Comments").toList ∧
    (locTC x y w h).type = AnnType.comment := by
  have hps : pageStr (cmTC x y w h) = ("Teacher Comments").toList := pageStr_single (itemTC x y w h)
  have hlen : (cmTC x y w h).length = 16 := buildCharMap_single_length (itemTC x y w h)
  have hw16 : ∀ e ∈ cmTC x y w h, 0 ≤ e.w := by
    intro e he
    rw [(mem_buildCharMap_single (itemTC x y w h) e he).1]
    exact div_nonneg hw (by positivity)
  have hh16 : ∀ e ∈ cmTC x y w h, 0 ≤ e.h := by
    intro e he
    rw [(mem_buildCharMap_single (itemTC x y w h) e he).2]
    exact hh
  have htake : ((cmTC x y w h).drop 0).take ((("Teacher Comments").toList).length) = cmTC x y w h := by
    rw [List.drop_zero]
    exact List.take_of_length_le (by rw [hlen]; decide)
  -- overlap of the substring keyword occurrence with the accepted region
  have hrej : ∀ (kw : Txt) (ty : AnnType) (i : Nat),
      ((cmTC x y w h).drop i).take kw.length ≠ [] →
      addCandidate [locTC x y w h] (mkCandidate 0 (cmTC x y w h) kw ty i) = [locTC x y w h] := by
    intro kw ty i hne
    refine addCandidate_of_overlap _ _ ⟨locTC x y w h, List.mem_singleton_self _, rfl, ?_⟩
    refine isOverlapping_of_subset 0 0 (cmTC x y w h) _ kw AnnType.comment ty 0 i hw16 hh16 hne ?_
    intro e he
    rw [htake]
    exact List.drop_subset i (cmTC x y w h) (List.take_subset _ _ he)
  have hguard : ∀ (kw : Txt) (i : Nat), i + kw.length ≤ 16 → 0 < kw.length →
      (((cmTC x y w h).drop i).take kw.length).length > 0 := by
    intro kw i hle hpos
    rw [List.length_take, List.length_drop, hlen]
    omega
  -- evaluate the three category passes
  have hscore : findAndAdd 0 (cmTC x y w h) [] SCORE_KEYWORDS AnnType.score = [] := by
    refine findAndAdd_no_occ 0 _ _ _ [] ?_
    rw [hps]
    decide
  have hcomment : findAndAdd 0 (cmTC x y w h) [] COMMENT_KEYWORDS AnnType.comment = [locTC x y w h] := by
    have hkw : COMMENT_KEYWORDS = ("Teacher Comments").toList :: ("Comments").toList ::
        [("Feedback").toList, ("Remarks").toList, ("教师评语").toList, ("老师评语").toList,
         ("评语").toList, ("建议").toList, ("评价").toList] := by decide
    rw [hkw, findAndAdd_cons,
      findAndAddKw_single_occ 0 _ [] _ _ 0 (by rw [hps]; decide) (hguard _ 0 (by decide) (by decide))]
    have hTCacc : addCandidate [] (mkCandidate 0 (cmTC x y w h) (("Teacher Comments").toList) AnnType.comment 0)
        = [locTC x y w h] := rfl
    rw [hTCacc, findAndAdd_cons,
      findAndAddKw_single_occ 0 _ _ _ _ 8 (by rw [hps]; decide) (hguard _ 8 (by decide) (by decide)),
      hrej _ _ 8 (by
        intro hnil
        have := congrArg List.length hnil
        rw [List.length_take, List.length_drop, hlen] at this
        simp at this)]
    refine findAndAdd_no_occ 0 _ _ _ _ ?_
    rw [hps]
    decide
  have hinstr : findAndAdd 0 (cmTC x y w h) [locTC x y w h] INSTRUCTOR_KEYWORDS AnnType.instructor
      = [locTC x y w h] := by
    have hkw : INSTRUCTOR_KEYWORDS = ("Instructor").toList :: ("Signature").toList ::
        ("Signed by").toList :: ("Teacher").toList ::
        [("指导教师").toList, ("教师签名").toList, ("签名").toList] := by decide
    rw [hkw, findAndAdd_cons, findAndAddKw_no_occ 0 _ _ _ _ (by rw [hps]; decide),
      findAndAdd_cons, findAndAddKw_no_occ 0 _ _ _ _ (by rw [hps]; decide),
      findAndAdd_cons, findAndAddKw_no_occ 0 _ _ _ _ (by rw [hps]; decide),
      findAndAdd_cons,
      findAndAddKw_single_occ 0 _ _ _ _ 0 (by rw [hps]; decide) (hguard _ 0 (by decide) (by decide)),
      hrej _ _ 0 (by
        intro hnil
        have := congrArg List.length hnil
        rw [List.length_take, List.length_drop, hlen] at this
        simp at this)]
    refine findAndAdd_no_occ 0 _ _ _ _ ?_
    rw [hps]
    decide
  refine ⟨?_, rfl, rfl⟩
  show scanPage 0 (pageTC x y w h pw ph) instr [] = [locTC x y w h]
  unfold scanPage
  cases instr with
  | none =>
      show findAndAdd 0 (cmTC x y w h) (findAndAdd 0 (cmTC x y w h) [] SCORE_KEYWORDS AnnType.score)
          COMMENT_KEYWORDS AnnType.comment = [locTC x y w h]
      rw [hscore, hcomment]
  | some ins =>
      show findAndAdd 0 (cmTC x y w h)
          (findAndAdd 0 (cmTC x y w h) (findAndAdd 0 (cmTC x y w h) [] SCORE_KEYWORDS AnnType.score)
            COMMENT_KEYWORDS AnnType.comment) INSTRUCTOR_KEYWORDS AnnType.instructor = [locTC x y w h]
      rw [hscore, hcomment, hinstr]

/-- Witness of C6 at a concrete placement (and with no instructor settings). -/
theorem scanPdf_composite_keyword_wins_witness :
    scanPdf [pageTC 100 700 160 12 600 800] none = [locTC 100 700 160 12] ∧
    (locTC 100 700 160 12).keyword = ("Teacher Comments").toList ∧
    (locTC 100 700 160 12).type = AnnType.comment :=
  scanPdf_composite_keyword_wins 100 700 160 12 600 800 (by norm_num) (by norm_num) none

/-! Claim C3: at-most-one category per region. -/

/-- The invariant of the Word passes: logged target nodes are distinct, and
every logged node is in the modifiedNodes set. -/
def WInv (st : WState) : Prop :=
  (st.log.map Prod.fst).Nodup ∧ ∀ ref ∈ st.log.map Prod.fst, ref ∈ st.modified

/-- writeCell preserves the invariant: a write is guarded by the
modifiedNodes membership test and then marks its target. -/
theorem WInv_writeCell (st : WState) (ref : Option NodeRef) (cat : Nat) (t col : Txt)
    (fo : Option Txt) (h : WInv st) : WInv (writeCell st ref cat t col fo) := by
  obtain ⟨hnodup, hmem⟩ := h
  unfold writeCell
  cases ref with
  | none => exact ⟨hnodup, hmem⟩
  | some r =>
    cases r with
    | cellParaRef b rr c k => exact ⟨hnodup, hmem⟩
    | bodyParaRef b => exact ⟨hnodup, hmem⟩
    | cellRef b rr c =>
      show WInv (if st.modified.contains (NodeRef.cellRef b rr c) = true then st
        else { doc := setCellW st.doc b rr c fun cl => updateCellNode cl t col fo
               modified := NodeRef.cellRef b rr c :: st.modified
               log := st.log ++ [(NodeRef.cellRef b rr c, cat)] })
      cases hcon : st.modified.contains (NodeRef.cellRef b rr c) with
      | true => exact ⟨hnodup, hmem⟩
      | false =>
        have hnot : NodeRef.cellRef b rr c ∉ st.modified := by simpa using hcon
        refine ⟨?_, ?_⟩
        · show (List.map Prod.fst (st.log ++ [(NodeRef.cellRef b rr c, cat)])).Nodup
          simp only [List.map_append, List.map_cons, List.map_nil]
          rw [List.nodup_append]
          refine ⟨hnodup, List.nodup_singleton _, ?_⟩
          intro a ha hb
          simp only [List.mem_singleton] at hb
          subst hb
          exact hnot (hmem _ ha)
        · show ∀ x ∈ List.map Prod.fst (st.log ++ [(NodeRef.cellRef b rr c, cat)]),
            x ∈ NodeRef.cellRef b rr c :: st.modified
          intro x hx
          simp only [List.map_append, List.map_cons, List.map_nil, List.mem_append,
            List.mem_singleton] at hx
          rcases hx with hx | hx
          · exact List.mem_cons_of_mem _ (hmem x hx)
          · subst hx; exact List.mem_cons_self _ _

/-- A guarded write preserves the invariant whatever the guard decides. -/
theorem WInv_iteWrite (c : Bool) (st : WState) (next : Option NodeRef) (cat : Nat)
    (t col : Txt) (fo : Option Txt) (h : WInv st) :
    WInv (if c = true then writeCell st next cat t col fo else st) := by
  cases c with
  | false => exact h
  | true => exact WInv_writeCell st next cat t col fo h

/-- cellWrites preserves the invariant. -/
theorem WInv_cellWrites (res : GradingResult) (instr : Option InstructorSettings)
    (st : WState) (next : Option NodeRef) (text : Txt) (h : WInv st) :
    WInv (cellWrites res instr st next text) := by
  unfold cellWrites
  exact WInv_iteWrite _ _ _ _ _ _ _ (WInv_iteWrite _ _ _ _ _ _ _ (WInv_iteWrite _ _ _ _ _ _ _ h))

/-- cellStep preserves the invariant. -/
theorem WInv_cellStep (res : GradingResult) (instr : Option InstructorSettings)
    (st : WState) (pos : Nat × Nat × Nat) (h : WInv st) : WInv (cellStep res instr st pos) := by
  unfold cellStep
  cases getCellW st.doc pos.1 pos.2.1 pos.2.2 with
  | none => exact h
  | some cell => exact WInv_cellWrites res instr st _ _ h

/-- paraMark preserves the invariant when its target is unclaimed. -/
theorem WInv_paraMark (res : GradingResult) (st : WState) (nref : NodeRef) (np : WPara)
    (h : WInv st) (hnot : nref ∉ st.modified) : WInv (paraMark res st nref np) := by
  obtain ⟨hnodup, hmem⟩ := h
  unfold paraMark
  cases (!(paraText np).isEmpty && decide ((paraText np).length < 20)) with
  | false => exact ⟨hnodup, hmem⟩
  | true =>
    refine ⟨?_, ?_⟩
    · show (List.map Prod.fst (st.log ++ [(nref, catScore)])).Nodup
      simp only [List.map_append, List.map_cons, List.map_nil]
      rw [List.nodup_append]
      refine ⟨hnodup, List.nodup_singleton _, ?_⟩
      intro a ha hb
      simp only [List.mem_singleton] at hb
      subst hb
      exact hnot (hmem _ ha)
    · show ∀ x ∈ List.map Prod.fst (st.log ++ [(nref, catScore)]), x ∈ nref :: st.modified
      intro x hx
      simp only [List.map_append, List.map_cons, List.map_nil, List.mem_append,
        List.mem_singleton] at hx
      rcases hx with hx | hx
      · exact List.mem_cons_of_mem _ (hmem x hx)
      · subst hx; exact List.mem_cons_self _ _

/-- paraWrite preserves the invariant. -/
theorem WInv_paraWrite (res : GradingResult) (st : WState) (nref : NodeRef) (h : WInv st) :
    WInv (paraWrite res st nref) := by
  unfold paraWrite
  cases hcon : st.modified.contains nref with
  | true => exact h
  | false =>
    have hnot : nref ∉ st.modified := by simpa using hcon
    cases getParaW st.doc nref with
    | none => exact h
    | some np => exact WInv_paraMark res st nref np h hnot

/-- paraStep preserves the invariant. -/
theorem WInv_paraStep (res : GradingResult) (st : WState) (ref : NodeRef) (h : WInv st) :
    WInv (paraStep res st ref) := by
  unfold paraStep
  cases getParaW st.doc ref with
  | none => exact h
  | some p =>
    show WInv (if paraTrigger (paraText p) = true then paraNextDispatch res st (nextParaRef st.doc ref) else st)
    cases paraTrigger (paraText p) with
    | false => exact h
    | true =>
      show WInv (paraNextDispatch res st (nextParaRef st.doc ref))
      cases nextParaRef st.doc ref with
      | none => exact h
      | some nref => exact WInv_paraWrite res st nref h

/-- Folding an invariant-preserving step preserves the invariant. -/
theorem WInv_foldl {β : Type} (f : WState → β → WState)
    (hf : ∀ st b, WInv st → WInv (f st b)) :
    ∀ (l : List β) (st : WState), WInv st → WInv (l.foldl f st) := by
  intro l
  induction l with
  | nil => intro st h; exact h
  | cons x xs ih => intro st h; exact ih (f st x) (hf st x h)

/-- Reading back the address just written. -/
theorem getCellX_setCellX_same (s : Sheet) (r c : Nat) (cell : XCell) :
    getCellX (setCellX s r c cell) r c = some cell := by
  simp [getCellX, setCellX]

/-- C3 amended.  In the Word path each target node is claimed by at most one
category: every write is guarded by the modifiedNodes set, so the ghost
write log never names the same node twice.  In the Excel path there is no
consumed marking: a cell value matching several categories triggers one
write per category to the same adjacent cell, so that cell's final content
comes from the last matching category in the order score, comment,
instructor. -/
theorem claimed_regions_per_category :
    (∀ (d : WordDoc) (res : GradingResult) (instr : Option InstructorSettings),
      ((annotateWordFull d res instr).log.map Prod.fst).Nodup) ∧
    (∀ (res : GradingResult) (instr : Option InstructorSettings) (sh : Sheet)
       (lg : List ((Nat × Nat) × Nat)) (r c : Nat) (cell : XCell),
      getCellX sh r c = some cell → cell.v ≠ [] →
      getCellX (excelStep res instr (sh, lg) (r, c)).1 r (c + 1) =
        (if instrMatches instr cell.v then some { t := ("s").toList, v := instrText instr }
         else if commentMatches cell.v then some { t := ("s").toList, v := res.teacher_comment }
         else if scoreMatches cell.v then some { t := ("s").toList, v := scoreExcelText res }
         else getCellX sh r (c + 1))) := by
  constructor
  · intro d res instr
    have hinv : WInv (annotateWordFull d res instr) := by
      unfold annotateWordFull
      refine WInv_foldl _ (fun st b h => WInv_paraStep res st b h) _ _ ?_
      refine WInv_foldl _ (fun st b h => WInv_cellStep res instr st b h) _ _ ?_
      exact ⟨List.nodup_nil, by intro x hx; cases hx⟩
    exact hinv.1
  · intro res instr sh lg r c cell hcell hv
    have hve : cell.v.isEmpty = false := by
      cases hvv : cell.v.isEmpty with
      | false => rfl
      | true => exact absurd (List.isEmpty_iff.mp hvv) hv
    unfold excelStep
    rw [hcell]
    simp only [excelDispatch, hve, Bool.false_eq_true, if_false]
    unfold excelWrites
    cases hsm : scoreMatches cell.v <;> cases hcm : commentMatches cell.v <;>
        cases him : instrMatches instr cell.v <;>
      simp [writeToNextCell, getCellX_setCellX_same]

/-- The spreadsheet of the C3 counterexample: one cell reading a value that
contains both a score keyword and a comment keyword. -/
def sheetC3 : Sheet :=
  { rs := 0, cs := 0, re := 0, ce := 1
    cells := [((0, 0), { t := ("s").toList, v := ("Score Comments").toList })] }

/-- C3 counterexample.  In the Excel path nothing is marked consumed: the
cell (0,0) matches both the score and the comment category, the ghost log
records two claims of the same adjacent region (0,1), and that region's
final content is the comment text, which the score category's write did not
survive - so a region can be claimed by two categories, against the claim. -/
theorem excel_region_claimed_twice :
    (annotateExcelSheet resW none sheetC3).2 = [((0, 1), catScore), ((0, 1), catComment)] ∧
    ¬ (((annotateExcelSheet resW none sheetC3).2.map Prod.fst).Nodup) ∧
    getCellX (annotateExcelSheet resW none sheetC3).1 0 1
      = some { t := ("s").toList, v := ("Good").toList } ∧
    ("Good").toList ≠ scoreExcelText resW := by
  refine ⟨by decide, by decide, by decide, by decide⟩

/-- Witness of the amended C3: the Word log of the C10 document is
duplicate-free, and the Excel step on sheetC3's labelled cell leaves the
comment text (the last matching category) in the adjacent cell. -/
theorem claimed_regions_per_category_witness :
    ((annotateWordFull docC10 resW none).log.map Prod.fst).Nodup ∧
    getCellX (excelStep resW none (sheetC3, [])  (0, 0)).1 0 1
      = some { t := ("s").toList, v := ("Good").toList } := by
  constructor
  · exact claimed_regions_per_category.1 docC10 resW none
  · have h := claimed_regions_per_category.2 resW none sheetC3 [] 0 0
      { t := ("s").toList, v := ("Score Comments").toList } (by decide) (by decide)
    rw [h]
    decide

/-! Claim C8: the paragraph pass and the 20-character threshold. -/

/-- A triggering paragraph with no paragraph next sibling does nothing. -/
theorem paraStep_next_none (res : GradingResult) (st : WState) (ref : NodeRef)
    (h : nextParaRef st.doc ref = none) : paraStep res st ref = st := by
  unfold paraStep
  cases getParaW st.doc ref with
  | none => rfl
  | some p =>
    simp only [paraDispatch]
    rw [h]
    cases paraTrigger (paraText p) with
    | false => rfl
    | true => rfl


/-- A paragraph holding one plain run. -/
def paraOf (t : Txt) : WPara := { pPr := none, runs := [{ color := none, fonts := none, text := t }], nested := [] }

/-- The textContent of a one-run paragraph is its run text. -/
theorem paraText_paraOf (t : Txt) : paraText (paraOf t) = t := by
  simp [paraText, paraOf]

/-- A document of two body paragraphs: the label "Score" and a sibling. -/
def docScoreSib (s : Txt) : WordDoc :=
  { blocks := [WBlock.par (paraOf (("Score").toList)), WBlock.par (paraOf s)] }

/-- C8 amended.  In the paragraph pass, a paragraph reading exactly the
keyword "Score" targets its next sibling paragraph, and the sibling receives
the score content if and only if its existing text is nonempty and shorter
than 20 characters: the source's "nextP.textContent &&" truthiness test
skips a sibling whose text is empty, so, contrary to the claim as stated,
emptiness also blocks the annotation. -/
theorem paragraph_pass_threshold (s : Txt) (res : GradingResult) (instr : Option InstructorSettings) :
    (getParaW (annotateWordDoc (docScoreSib s) res instr) (NodeRef.bodyParaRef 1)).map paraText
      = some (if s ≠ [] ∧ s.length < 20 then s ++ scoreParaText res else s) := by
  have hA : annotateWordDoc (docScoreSib s) res instr
      = (paraStep res (paraMark res { doc := docScoreSib s, modified := [], log := [] }
          (NodeRef.bodyParaRef 1) (paraOf s)) (NodeRef.bodyParaRef 1)).doc := rfl
  rw [hA]
  simp only [paraMark, paraText_paraOf]
  cases hcnd : (!s.isEmpty && decide (s.length < 20)) with
  | true =>
    have hprop : s ≠ [] ∧ s.length < 20 := by
      simp only [Bool.and_eq_true, Bool.not_eq_true', decide_eq_true_eq] at hcnd
      exact ⟨fun hs => by simp [hs] at hcnd, hcnd.2⟩
    show (getParaW (paraStep res
        { doc := setParaW (docScoreSib s) (NodeRef.bodyParaRef 1)
            (fun q => updateParaNode q (scoreParaText res) (("FF0000").toList) none)
          modified := [NodeRef.bodyParaRef 1]
          log := [(NodeRef.bodyParaRef 1, catScore)] } (NodeRef.bodyParaRef 1)).doc
        (NodeRef.bodyParaRef 1)).map paraText
      = some (if s ≠ [] ∧ s.length < 20 then s ++ scoreParaText res else s)
    rw [paraStep_next_none res
        { doc := setParaW (docScoreSib s) (NodeRef.bodyParaRef 1)
            (fun q => updateParaNode q (scoreParaText res) (("FF0000").toList) none)
          modified := [NodeRef.bodyParaRef 1]
          log := [(NodeRef.bodyParaRef 1, catScore)] } (NodeRef.bodyParaRef 1) rfl,
      if_pos hprop]
    have hget : getParaW (setParaW (docScoreSib s) (NodeRef.bodyParaRef 1)
        (fun q => updateParaNode q (scoreParaText res) (("FF0000").toList) none)) (NodeRef.bodyParaRef 1)
        = some (updateParaNode (paraOf s) (scoreParaText res) (("FF0000").toList) none) := rfl
    show (getParaW (setParaW (docScoreSib s) (NodeRef.bodyParaRef 1)
        (fun q => updateParaNode q (scoreParaText res) (("FF0000").toList) none)) (NodeRef.bodyParaRef 1)).map paraText
      = some (s ++ scoreParaText res)
    rw [hget]
    simp [paraText, updateParaNode, paraOf, subParaText, mkRun]
  | false =>
    have hprop : ¬(s ≠ [] ∧ s.length < 20) := by
      intro hand
      rcases Bool.and_eq_false_iff.mp hcnd with h | h
      · have hse : s.isEmpty = true := by simpa using h
        exact hand.1 (List.isEmpty_iff.mp hse)
      · rw [decide_eq_false_iff_not] at h
        exact h hand.2
    show (getParaW (paraStep res { doc := docScoreSib s, modified := [], log := [] }
        (NodeRef.bodyParaRef 1)).doc (NodeRef.bodyParaRef 1)).map paraText
      = some (if s ≠ [] ∧ s.length < 20 then s ++ scoreParaText res else s)
    rw [paraStep_next_none res { doc := docScoreSib s, modified := [], log := [] }
        (NodeRef.bodyParaRef 1) rfl, if_neg hprop]
    have hget : getParaW (docScoreSib s) (NodeRef.bodyParaRef 1) = some (paraOf s) := rfl
    show (getParaW (docScoreSib s) (NodeRef.bodyParaRef 1)).map paraText = some s
    rw [hget]
    simp [paraText_paraOf]

/-- C8 counterexample.  The claim says a sibling whose existing text is empty
(hence under the 20-character threshold) is annotated; in the code the
truthiness test "nextP.textContent &&" is falsy for an empty sibling, so the
document comes back completely unchanged even though the label paragraph
triggers. -/
theorem paragraph_pass_empty_sibling_skipped :
    annotateWordDoc (docScoreSib []) resW none = docScoreSib [] ∧
    ([] : Txt).length < 20 ∧
    paraTrigger (("Score").toList) = true := by
  refine ⟨by decide, by decide, by decide⟩

/-! Claim C9: page bounds of the planned draw boxes. -/

/-- Indices in an enumFrom are at least the start index. -/
theorem mem_enumFrom_fst_ge {α : Type} : ∀ (l : List α) (n : Nat) (p : Nat × α), p ∈ l.enumFrom n → n ≤ p.1 := by
  intro l
  induction l with
  | nil => intro n p hp; cases hp
  | cons x xs ih =>
    intro n p hp
    rcases List.mem_cons.mp hp with hx | hxs
    · subst hx; exact le_refl n
    · exact le_trans (Nat.le_succ n) (ih (n + 1) p hxs)

/-- The line-breaking fold keeps every finished line and the current line
within the budget, provided each single character measures within the budget
and all remaining indices are positive. -/
theorem wrap_fold_bounded (m : Txt → ℚ) (maxW : ℚ) (hchar : ∀ c : Char, m [c] ≤ maxW) :
    ∀ (ps : List (Nat × Char)) (acc : List Txt × Txt),
      (∀ p ∈ ps, 0 < p.1) → (∀ l ∈ acc.1, m l ≤ maxW) → m acc.2 ≤ maxW →
      (∀ l ∈ (ps.foldl (wrapStep m maxW) acc).1, m l ≤ maxW) ∧
        m (ps.foldl (wrapStep m maxW) acc).2 ≤ maxW := by
  intro ps
  induction ps with
  | nil => intro acc _ h1 h2; exact ⟨h1, h2⟩
  | cons p ps ih =>
    intro acc hpos h1 h2
    rw [List.foldl_cons]
    have hp0 : 0 < p.1 := hpos p (List.mem_cons_self p ps)
    have hstep : (∀ l ∈ (wrapStep m maxW acc p).1, m l ≤ maxW) ∧ m (wrapStep m maxW acc p).2 ≤ maxW := by
      simp only [wrapStep]
      cases hcnd : (decide (m (acc.2 ++ [p.2]) > maxW) && decide (0 < p.1)) with
      | true =>
        refine ⟨?_, hchar p.2⟩
        intro l hl
        rcases List.mem_append.mp hl with hl | hl
        · exact h1 l hl
        · simp only [List.mem_singleton] at hl
          subst hl
          exact h2
      | false =>
        refine ⟨h1, ?_⟩
        rcases Bool.and_eq_false_iff.mp hcnd with hcc | hcc
        · rw [decide_eq_false_iff_not, not_lt] at hcc
          exact hcc
        · rw [decide_eq_false_iff_not] at hcc
          exact absurd hp0 hcc
    exact ih (wrapStep m maxW acc p) (fun q hq => hpos q (List.mem_cons_of_mem p hq)) hstep.1 hstep.2

/-- Every line produced by the line-breaking loop of createTextImage on a
nonempty text measures within the budget, provided every single character
does. -/
theorem wrapLines_bounded (m : Txt → ℚ) (maxW : ℚ) (hchar : ∀ c : Char, m [c] ≤ maxW)
    (text : Txt) (hne : text ≠ []) : ∀ l ∈ wrapLines m maxW text, m l ≤ maxW := by
  cases text with
  | nil => exact absurd rfl hne
  | cons c rest =>
    intro l hl
    unfold wrapLines at hl
    rw [List.enum_cons] at hl
    rw [List.foldl_cons] at hl
    have hstep0 : wrapStep m maxW ([], []) (0, c) = ([], [c]) := by
      unfold wrapStep
      simp
    rw [hstep0] at hl
    have hfold := wrap_fold_bounded m maxW hchar (rest.enumFrom 1) ([], [c])
      (fun p hp => lt_of_lt_of_le Nat.zero_lt_one (mem_enumFrom_fst_ge rest 1 p hp))
      (by intro x hx; cases hx) (hchar c)
    rcases List.mem_append.mp hl with hl | hl
    · exact hfold.1 l hl
    · simp only [List.mem_singleton] at hl
      subst hl
      exact hfold.2

/-- The running-maximum fold of createTextImage stays within any bound that
dominates the initial value and every measured line. -/
theorem maxline_fold_le (m : Txt → ℚ) (B : ℚ) :
    ∀ (lines : List Txt), (∀ l ∈ lines, m l ≤ B) → ∀ a : ℚ, a ≤ B →
      lines.foldl (fun acc l => if m l > acc then m l else acc) a ≤ B := by
  intro lines
  induction lines with
  | nil => intro _ a ha; exact ha
  | cons l ls ih =>
    intro hall a ha
    rw [List.foldl_cons]
    refine ih (fun q hq => hall q (List.mem_cons_of_mem l hq)) _ ?_
    by_cases hc : m l > a
    · rw [if_pos hc]; exact hall l (List.mem_cons_self l ls)
    · rw [if_neg hc]; exact ha

/-- The canvas width of a wrapped text image exceeds the wrap budget by less
than 11 pixels (the 10-pixel padding plus the ceiling). -/
theorem createTextImage_width_le (env : Env) (text : Txt) (maxW fs : ℚ)
    (hchar : ∀ c : Char, env.m fs [c] ≤ maxW) (h0 : 0 ≤ maxW) (img : TextImg)
    (h : createTextImage env text { maxWidth := maxW, fontSize := fs, isMultiLine := true } = some img) :
    img.width ≤ maxW + 11 := by
  unfold createTextImage at h
  cases hne : text.isEmpty with
  | true => rw [hne] at h; exact Option.noConfusion h
  | false =>
    rw [hne] at h
    cases hctx : env.ctx2d with
    | false => rw [hctx] at h; exact Option.noConfusion h
    | true =>
      rw [hctx] at h
      have htne : text ≠ [] := by
        intro hnil
        rw [hnil] at hne
        exact Bool.noConfusion hne
      have hfold : (wrapLines (env.m fs) maxW text).foldl
          (fun acc l => if env.m fs l > acc then env.m fs l else acc) 0 ≤ maxW :=
        maxline_fold_le (env.m fs) maxW (wrapLines (env.m fs) maxW text)
          (wrapLines_bounded (env.m fs) maxW hchar text htne) 0 h0
      have himg : img =
          { srcText := text,
            width := ((⌈(wrapLines (env.m fs) maxW text).foldl
              (fun acc l => if env.m fs l > acc then env.m fs l else acc) 0 + 10⌉ : ℤ) : ℚ),
            height := ((⌈((wrapLines (env.m fs) maxW text).length : ℚ) * (fs * (14 / 10))⌉ : ℤ) : ℚ) } :=
        (Option.some.inj h).symm
      rw [himg]
      show ((⌈(wrapLines (env.m fs) maxW text).foldl
          (fun acc l => if env.m fs l > acc then env.m fs l else acc) 0 + 10⌉ : ℤ) : ℚ) ≤ maxW + 11
      have hceil := Int.ceil_lt_add_one ((wrapLines (env.m fs) maxW text).foldl
          (fun acc l => if env.m fs l > acc then env.m fs l else acc) 0 + 10)
      linarith

/-- C9 amended.  The comment placement is the only bounds-checked one, and
it respects the page's right edge: for every located comment region the
final draw box satisfies x + width <= pageW, provided each single character
measures within the wrap budgets (700 beside the label, twice the full page
width after relocation) and the page is at least 80 wide.  In particular a
label within one box-width of the right edge takes the overflow branch and
is relocated to the full-width box at x = 40 below the label. -/
theorem planComment_within_page (env : Env) (loc : PdfLocation) (pageW : ℚ) (commentText : Txt)
    (hchar : ∀ c : Char, env.m 18 [c] ≤ 700 ∧ env.m 18 [c] ≤ 2 * (pageW - 80))
    (hpw : 80 ≤ pageW) (img : TextImg) (box : DrawBox)
    (h : planComment env loc pageW commentText = some (img, box)) :
    box.x + box.w ≤ pageW := by
  unfold planComment at h
  cases hci : createTextImage env
      (if commentText.isEmpty then ("No comments generated.").toList else commentText)
      { maxWidth := commentFinalWidth loc pageW * 2, fontSize := 18, isMultiLine := true } with
  | none => rw [hci] at h; exact Option.noConfusion h
  | some i =>
    rw [hci] at h
    have hpair := Option.some.inj h
    injection hpair with himg hbox
    subst hbox
    simp only [commentBox]
    cases hmv : commentMoveDown loc pageW with
    | true =>
      have hfw : commentFinalWidth loc pageW = pageW - 80 := by
        unfold commentFinalWidth
        rw [hmv]
        rfl
      rw [hfw] at hci
      have hwid : i.width ≤ (pageW - 80) * 2 + 11 :=
        createTextImage_width_le env _ ((pageW - 80) * 2) 18
          (fun c => by linarith [(hchar c).2]) (by linarith) i hci
      simp only [hmv, if_true]
      show (40 : ℚ) + i.width * (1 / 2) ≤ pageW
      linarith
    | false =>
      have hfw : commentFinalWidth loc pageW = 350 := by
        unfold commentFinalWidth
        rw [hmv]
        rfl
      rw [hfw] at hci
      have hwid : i.width ≤ 350 * 2 + 11 :=
        createTextImage_width_le env _ (350 * 2) 18
          (fun c => by linarith [(hchar c).1]) (by norm_num) i hci
      have hnomove : loc.x + loc.width + 50 + 350 ≤ pageW - 20 := by
        have hmv2 := hmv
        unfold commentMoveDown at hmv2
        rw [decide_eq_false_iff_not] at hmv2
        linarith [not_lt.mp hmv2]
      simp only [hmv, Bool.false_eq_true, if_false]
      show loc.x + loc.width + 50 + i.width * (1 / 2) ≤ pageW
      linarith

/-- The page of the C9 counterexample: a score label near the right edge of
a 600-wide page. -/
def pageC9 : PdfPage :=
  { items := [ { str := ("Score").toList, x := 500, y := 700, width := 50, height := 12 } ]
    width := 600, height := 800 }

unseal Rat.add Rat.mul Rat.inv Rat.sub in
set_option maxRecDepth 10000 in
/-- C9 counterexample.  The score placement has no page-bound check: on the
600-wide page the located label ends at x = 550 and the score image is drawn
at x = 600 with width 12, so the emitted draw box crosses the page's right
edge, refuting "the planned draw box never exceeds the page bounds on any
axis" for every located region of every category. -/
theorem score_draw_box_exceeds_page :
    (annotatePdfDoc envAll [pageC9] resW none).1
      = [PdfOp.image (("87").toList) { x := 600, y := 700, w := 12, h := 51 / 2 }] ∧
    (600 : ℚ) + 12 > pageC9.width := by
  refine ⟨by decide, by decide⟩

/-- The located comment region of the C9 witness (within one box-width of
the right edge of a 600-wide page). -/
def locC9 : PdfLocation :=
  { page := 0, x := 500, y := 700, width := 50, height := 12, isVertical := false
    type := AnnType.comment, keyword := [] }

/-- The rasterized comment image of the C9 witness. -/
def imgC9 : TextImg := { srcText := ("Nice work").toList, width := 73, height := 26 }

/-- The final draw box of the C9 witness: relocated to the full-width box at
x = 40. -/
def boxC9 : DrawBox := { x := 40, y := 672, w := 73 / 2, h := 13 }

unseal Rat.add Rat.mul Rat.inv Rat.sub in
set_option maxRecDepth 10000 in
/-- Witness of the amended C9 at a concrete overflow-relocated comment. -/
theorem planComment_within_page_witness : boxC9.x + boxC9.w ≤ 600 :=
  planComment_within_page envAll locC9 600 (("Nice work").toList)
    (fun c => by
      constructor <;> simp [envAll] <;> norm_num)
    (by norm_num) imgC9 boxC9 (by decide)

/-! Claim C1: the top-level contract of getAnnotatedFileBlob. -/

/-- When jsPDF is loaded the catch block always yields a success, whatever
the attempted annotation returned. -/
theorem isOkE_withReportFallback (env : Env) (name : Txt) (res : GradingResult)
    (instr : Option InstructorSettings) (e : Except AnnError (Blob × String))
    (hjs : env.jspdf = true) : isOkE (withReportFallback env name res instr e) = true := by
  cases e with
  | ok r => rfl
  | error err =>
    show isOkE ((generateReportPDFBlobE env name res instr).map (fun b => (b, "pdf"))) = true
    unfold generateReportPDFBlobE
    rw [hjs]
    rfl

/-- C1 amended.  For every input file, grading result and instructor
settings, getAnnotatedFileBlob returns a usable artifact provided the jsPDF
library (the fallback generator's own dependency) is loaded: every internal
annotation failure is caught and the fallback report substituted, never
propagated. -/
theorem getAnnotatedFileBlob_total (env : Env) (f : MFile) (res : GradingResult)
    (instr : Option InstructorSettings) (hjs : env.jspdf = true) :
    isOkE (getAnnotatedFileBlob env f res instr) = true :=
  isOkE_withReportFallback env f.name res instr (annotateAttempt env f res instr) hjs

/-- Witness of the amended C1 on a concrete docx file in a full environment. -/
theorem getAnnotatedFileBlob_total_witness :
    isOkE (getAnnotatedFileBlob envAll fileC10 resW none) = true :=
  getAnnotatedFileBlob_total envAll fileC10 resW none rfl

/-- An environment in which no CDN library is available. -/
def envNone : Env :=
  { jszip := false, xlsx := false, pdfjs := false, pdflib := false, jspdf := false
    ctx2d := false, m := fun _ _ => 0 }

/-- A plain-text input file (no annotatable format). -/
def fileTxt : MFile :=
  { name := ("a.txt").toList, ftype := FileTypeM.other, content := FileContent.other }

/-- C1 counterexample.  When the jsPDF library is unavailable, the catch
block's own call to generateReportPDFBlob throws and that error escapes
getAnnotatedFileBlob: the unsupported input file yields an error, not a
usable artifact, refuting "never throws past its boundary" for every input
in every reachable environment state. -/
theorem getAnnotatedFileBlob_throws_without_jspdf :
    getAnnotatedFileBlob envNone fileTxt resW none = Except.error AnnError.jspdfMissing := rfl

/-! Claim C2: the zero-locations fallback. -/

/-- createTextImage succeeds on nonempty text when a 2d context is
available, and its image records the source text. -/
theorem createTextImage_some (env : Env) (text : Txt) (opts : TextImgOptions)
    (hne : text.isEmpty = false) (hctx : env.ctx2d = true) :
    ∃ img, createTextImage env text opts = some img ∧ img.srcText = text := by
  unfold createTextImage
  rw [hne, hctx]
  exact ⟨_, rfl, rfl⟩

/-- C2 amended.  For PDF inputs, whenever the scan finds zero placeholder
regions the fallback report page is drawn, and its operations include an
image rasterized from the literal score value and an image rasterized from
the comment text (assuming a drawing context and a nonempty comment; an
empty comment is replaced by the "No comments." default). -/
theorem annotatePdf_zero_locations_fallback (env : Env) (pages : List PdfPage)
    (res : GradingResult) (instr : Option InstructorSettings)
    (hscan : scanPdf pages instr = []) (hctx : env.ctx2d = true)
    (hcmt : res.teacher_comment ≠ []) :
    (∃ box, PdfOp.image ((toString res.score).toList) box ∈ (annotatePdfDoc env pages res instr).1) ∧
    (∃ box, PdfOp.image res.teacher_comment box ∈ (annotatePdfDoc env pages res instr).1) := by
  have hops : (annotatePdfDoc env pages res instr).1
      = fallbackOps env res instr (scoreImg env res) (resolveSignatureDims env instr) := by
    unfold annotatePdfDoc
    rw [hscan]
    rfl
  rw [hops]
  have hsne : ((toString res.score).toList).isEmpty = false := by
    cases hh : ((toString res.score).toList).isEmpty with
    | false => rfl
    | true => exact absurd (List.isEmpty_iff.mp hh) (toString_int_ne_nil res.score)
  obtain ⟨simg, hsi, hsrc⟩ :=
    createTextImage_some env ((toString res.score).toList) { fontSize := 36 } hsne hctx
  have hscoreimg : scoreImg env res = some simg := hsi
  have hcne : (res.teacher_comment).isEmpty = false := by
    cases hh : (res.teacher_comment).isEmpty with
    | false => rfl
    | true => exact absurd (List.isEmpty_iff.mp hh) hcmt
  obtain ⟨cimg, hci, hcsrc⟩ := createTextImage_some env res.teacher_comment
    { maxWidth := 1000, fontSize := 18, isMultiLine := true } hcne hctx
  rw [hscoreimg]
  unfold fallbackOps
  rw [hcne]
  simp only [Bool.false_eq_true, if_false]
  rw [hci]
  constructor
  · refine ⟨{ x := 100, y := 650, w := simg.width * (1 / 2), h := simg.height * (1 / 2) }, ?_⟩
    cases instr with
    | none => simp [hsrc]
    | some ins =>
      cases hen : ins.enabled with
      | false => simp [hen, hsrc]
      | true =>
        cases hsg : resolveSignatureDims env (some ins) with
        | none => simp [hen, hsg, hsrc]
        | some d => simp [hen, hsg, hsrc]
  · refine ⟨{ x := 50, y := 580 - cimg.height * (1 / 2), w := cimg.width * (1 / 2), h := cimg.height * (1 / 2) }, ?_⟩
    cases instr with
    | none => simp [hcsrc]
    | some ins =>
      cases hen : ins.enabled with
      | false => simp [hen, hcsrc]
      | true =>
        cases hsg : resolveSignatureDims env (some ins) with
        | none => simp [hen, hsg, hcsrc]
        | some d => simp [hen, hsg, hcsrc]

/-- A page with no placeholder keyword at all. -/
def pageHello : PdfPage :=
  { items := [ { str := ("hello").toList, x := 10, y := 10, width := 50, height := 10 } ]
    width := 600, height := 800 }

unseal Rat.add Rat.mul Rat.inv Rat.sub in
set_option maxRecDepth 10000 in
/-- Witness of the amended C2 on a concrete label-free PDF page. -/
theorem annotatePdf_zero_locations_fallback_witness :
    (∃ box, PdfOp.image ((toString resW.score).toList) box ∈ (annotatePdfDoc envAll [pageHello] resW none).1) ∧
    (∃ box, PdfOp.image resW.teacher_comment box ∈ (annotatePdfDoc envAll [pageHello] resW none).1) :=
  annotatePdf_zero_locations_fallback envAll [pageHello] resW none (by decide) rfl (by decide)

/-- A Word document with no placeholder keyword. -/
def docHello : WordDoc :=
  { blocks := [WBlock.par
      { pPr := none,
        runs := [ { color := none, fonts := none, text := ("hello").toList } ],
        nested := [] }] }

/-- A docx file wrapping docHello. -/
def fileHello : MFile :=
  { name := ("hw.docx").toList, ftype := FileTypeM.word, content := FileContent.word (some docHello) }

/-- C2 counterexample.  A Word document in which zero placeholder labels are
located is serialized unmodified: the returned artifact is the unchanged
document blob, which contains neither the literal score value nor the
comment text - the fallback report generator is not triggered for
structured documents with zero matches, only the PDF path has a
zero-locations fallback. -/
theorem word_zero_labels_no_fallback :
    getAnnotatedFileBlob envAll fileHello resW none = Except.ok (Blob.word docHello, "docx") ∧
    blobContainsTxt (Blob.word docHello) ((toString resW.score).toList) = false ∧
    blobContainsTxt (Blob.word docHello) resW.teacher_comment = false := by
  refine ⟨rfl, by decide, by decide⟩

end GKD
